import Mathlib

/-!
Shallow embedding of the delimited-table parsing engine of the asciidork
repository (src/parser/src/tasks/table/parse_table.rs) together with the
renderer's column-group emission (src/dr-html-backend/src/asciidoctor_html.rs,
enter_table).  Rust types are translated structurally: bump-allocated vectors
become lists, `Result` becomes `Except`, panics become an explicit error
variant, and the mutable `Parser`/`TableContext` state is threaded explicitly.
Collaborators that live outside the embedded sources (the inline parser, the
nested cell parser, the lexer) are fields of the `Parser` record holding
arbitrary functions, so every theorem quantifies over their behavior.
-/

namespace Asciidork

/-- Token kinds; the table code inspects only `Newline` and `Whitespace`
(via `is_whitespaceish`), all other kinds are represented by `Word`. -/
inductive TokenKind
  | Newline
  | Whitespace
  | Word
  deriving DecidableEq, Repr

/-- A half-open source span `start..stop` (Rust `SourceLocation`). -/
structure SourceLocation where
  start : Nat
  stop : Nat
  deriving DecidableEq, Repr

/-- Rust `Token`: kind, lexeme and source location. -/
structure Token where
  kind : TokenKind
  lexeme : String
  loc : SourceLocation
  deriving DecidableEq, Repr

/-- Modelled from the spec: `parse_table.rs` strips "trailing
whitespace/newline tokens" with `is_whitespaceish` (defined outside the
embedded sources); true exactly for whitespace and newline tokens. -/
def Token.is_whitespaceish (t : Token) : Bool :=
  t.kind = TokenKind.Whitespace ∨ t.kind = TokenKind.Newline

/-- `Option<&Token>::is_whitespaceish`, as used on `cell_tokens.last()`. -/
def lastIsWhitespaceish : Option Token → Bool
  | none => false
  | some t => t.is_whitespaceish

/-- Inline nodes: the table code only distinguishes `Inline::Newline` (for
paragraph splitting in `split_paragraphs`); all other inline content is
collapsed into `Text`. -/
inductive Inline
  | Newline
  | Text (s : String)
  deriving DecidableEq, Repr

/-- Cell content styles (`CellContentStyle`). -/
inductive CellContentStyle
  | Default
  | Emphasis
  | Header
  | Monospace
  | Strong
  | Literal
  | AsciiDoc
  deriving DecidableEq, Repr

/-- A nested document produced by an AsciiDoc-style cell sub-parse.  Its
internal structure is irrelevant to the table engine, which stores it
opaquely; we record the identity the external cell parser hands back. -/
structure AdocDocument where
  content : String
  deriving DecidableEq, Repr

/-- Resolved cell content (`CellContent`), tagged by style. -/
inductive CellContent
  | Default (paras : List (List Inline))
  | Emphasis (paras : List (List Inline))
  | Header (paras : List (List Inline))
  | Monospace (paras : List (List Inline))
  | Strong (paras : List (List Inline))
  | Literal (nodes : List Inline)
  | AsciiDoc (doc : AdocDocument)
  deriving DecidableEq, Repr

/-- Where a diagnostic points.  `err_at_pattern` points at the span of a
pattern searched from a start offset; `err_line` points at a whole line.
Modelled from the spec: the diagnostic constructors live outside the
embedded sources; we keep exactly the data the call sites pass. -/
inductive DiagSpan
  | pattern (searchFrom : Nat) (pat : String)
  | line (src : String) (loc : Option SourceLocation)
  deriving DecidableEq, Repr

/-- A diagnostic: message plus the span information passed at the call site. -/
structure Diagnostic where
  msg : String
  span : DiagSpan
  deriving DecidableEq, Repr

/-- Failure modes of the embedded functions: a propagated `Diagnostic`
(Rust `Err(diagnostic)`), or a Rust panic (`unreachable!`, `unwrap`,
out-of-bounds `remove`). -/
inductive ParseErr
  | Diag (d : Diagnostic)
  | Panic (msg : String)
  deriving DecidableEq, Repr

/-- Decidable equality for `Except` results, used to evaluate the embedded
functions on closed inputs. -/
instance instDecEqExcept {ε α : Type} [DecidableEq ε] [DecidableEq α] :
    DecidableEq (Except ε α)
  | .ok a, .ok b =>
    if h : a = b then isTrue (by rw [h])
    else isFalse (by intro hh; cases hh; exact h rfl)
  | .ok _, .error _ => isFalse (by intro hh; cases hh)
  | .error _, .ok _ => isFalse (by intro hh; cases hh)
  | .error e, .error f =>
    if h : e = f then isTrue (by rw [h])
    else isFalse (by intro hh; cases hh; exact h rfl)

/-- Column width spec (`ColWidth`). -/
inductive ColWidth
  | Auto
  | Proportional (weight : Nat)
  | Percentage (value : ℚ)
  deriving DecidableEq, Repr

/-- Declared column spec (`ColSpec`): width plus default cell style. -/
structure ColSpec where
  width : ColWidth
  style : CellContentStyle
  deriving DecidableEq, Repr

/-- Per-cell spec (`CellSpec`): duplication count and explicit style marker;
alignment hints are carried opaquely and never read by the embedded code. -/
structure CellSpec where
  duplication : Option Nat := none
  style : Option CellContentStyle := none
  deriving DecidableEq, Repr

/-- A table cell (`Cell`). -/
structure Cell where
  content : CellContent
  spec : CellSpec
  col_spec : Option ColSpec
  deriving DecidableEq, Repr

/-- A table row (`Row`): ordered cells. -/
structure Row where
  cells : List Cell
  deriving DecidableEq, Repr

/-- The assembled table (`Table`). -/
structure Table where
  col_widths : List ColWidth
  header_row : Option Row
  rows : List Row
  footer_row : Option Row
  deriving DecidableEq, Repr

/-- Header inference state (`HeaderRow`), from `context.rs`.
Modelled from the spec: `Unknown | ExplicitlySet | ExplicitlyUnset |
FoundNone | FoundImplicit`. -/
inductive HeaderRow
  | Unknown
  | ExplicitlySet
  | ExplicitlyUnset
  | FoundNone
  | FoundImplicit
  deriving DecidableEq, Repr

/-- Modelled from the spec: the two states under which the header row is
known to exist (`FoundImplicit`/`ExplicitlySet` are the only states under
which `Table.header_row` is populated). -/
def HeaderRow.known_to_exist : HeaderRow → Bool
  | .ExplicitlySet => true
  | .FoundImplicit => true
  | _ => false

/-- `HeaderRow::is_unknown`. -/
def HeaderRow.is_unknown : HeaderRow → Bool
  | .Unknown => true
  | _ => false

/-- Data format of the table (`DataFormat`), from the table module.
Modelled from the spec: `Prefix(char) | Delimited(char) | Csv(char)`,
carrying the active separator character. -/
inductive DataFormat
  | Prefix (c : Char)
  | Delimited (c : Char)
  | Csv (c : Char)
  deriving DecidableEq, Repr

/-- The grammar kind of a `DataFormat`, forgetting the separator. -/
inductive DataFormatKind
  | prefixKind
  | delimitedKind
  | csvKind
  deriving DecidableEq, Repr

/-- Which grammar family a format uses. -/
def DataFormat.kind : DataFormat → DataFormatKind
  | .Prefix _ => .prefixKind
  | .Delimited _ => .delimitedKind
  | .Csv _ => .csvKind

/-- Modelled from the spec: the active separator character of a format. -/
def DataFormat.separator : DataFormat → Char
  | .Prefix c => c
  | .Delimited c => c
  | .Csv c => c

/-- Modelled from the spec: `replace_separator` overrides the separator but
leaves the grammar kind unchanged. -/
def DataFormat.replace_separator : DataFormat → Char → DataFormat
  | .Prefix _, c => .Prefix c
  | .Delimited _, c => .Delimited c
  | .Csv _, c => .Csv c

/-- Buffered raw-cell data kept for a possible header reparse
(`ParseCellData`, from `context.rs`).  Modelled from the spec: raw token
span plus cell/column spec retained in a side buffer. -/
structure ParseCellData where
  cell_tokens : List Token
  loc : SourceLocation
  cell_spec : CellSpec
  col_spec : Option ColSpec
  deriving DecidableEq, Repr

/-- The transient table-parse context (`TableContext`, from `context.rs`),
with the fields `parse_table.rs` reads or writes.  The token-kind caches
(`embeddable_cell_separator`, `cell_separator_tokenkind`) and
`phantom_cells` are consumed only by the row/cell grammar parsers, which
are external collaborators of this embedding, and are omitted. -/
structure TableContext where
  delim_ch : Char
  format : DataFormat
  cell_separator : Char
  num_cols : Nat
  counting_cols : Bool
  col_specs : List ColSpec
  header_row : HeaderRow
  header_reparse_cells : List ParseCellData
  autowidths : Bool
  can_infer_implicit_header : Bool
  effective_row_idx : Nat
  table : Table
  deriving DecidableEq, Repr

/-- A source line: its raw text and its tokens (`Line`). -/
structure Line where
  src : String
  tokens : List Token
  deriving DecidableEq, Repr

/-- `Line::last_loc`: the location of the last token, if any. -/
def Line.last_loc (l : Line) : Option SourceLocation :=
  (l.tokens.getLast?).map Token.loc

/-- `Line::loc`: the span of the whole line (first token start to last
token end), if the line has tokens. -/
def Line.loc (l : Line) : Option SourceLocation :=
  match l.tokens, l.tokens.getLast? with
  | t :: _, some last => some ⟨t.loc.start, last.loc.stop⟩
  | _, _ => none

/-- The token buffer for a table body plus its source span (`TableTokens`). -/
structure TableTokens where
  tokens : List Token
  loc : SourceLocation
  deriving DecidableEq, Repr

/-- The ambient parser state threaded through table parsing.  `strict` and
`errors` mirror the Rust fields; `source_lines` models the `read_line`
input; `restored` receives lines handed back via `restore_lines`.  The
external collaborators — the general inline parser (with the style's
substitution set) and the nested AsciiDoc cell parser — are arbitrary
functions. -/
structure Parser where
  strict : Bool
  errors : List Diagnostic
  source_lines : List Line
  restored : List Line
  parse_inlines : CellContentStyle → List Token → Except ParseErr (List Inline)
  cellParser : List Token → Nat → Except (List Diagnostic) (AdocDocument × List Diagnostic)

/-- Modelled from the spec: diagnostics are accumulated, except that strict
mode aborts eagerly — the shared error-handling helper returns the
diagnostic as a failure when `strict`, and records it otherwise. -/
def Parser.handle_err (p : Parser) (d : Diagnostic) : Except ParseErr Parser :=
  if p.strict then .error (.Diag d) else .ok { p with errors := p.errors ++ [d] }

/-- Modelled from the spec: `err_line` reports a diagnostic pointing at the
given line (used for "Table never closed, started here"). -/
def Parser.err_line (p : Parser) (msg : String) (l : Line) : Except ParseErr Parser :=
  p.handle_err { msg := msg, span := .line l.src l.loc }

/-- Format resolution from `parse_table` (parse_table.rs lines 26-36): an
explicit `format` attribute takes precedence, otherwise the format is
inferred from the opening delimiter character. -/
def resolve_format (format_attr : Option String) (delim_ch : Char) : DataFormat :=
  match format_attr, delim_ch with
  | some "psv", _ => .Csv '|'
  | some "csv", _ => .Csv ','
  | some "tsv", _ => .Csv '\t'
  | some "dsv", _ => .Delimited ':'
  | _, ':' => .Delimited ':'
  | _, ',' => .Delimited ','
  | _, '|' => .Prefix '|'
  | _, '!' => .Prefix '!'
  | _, _ => .Prefix delim_ch

/-- Separator-attribute resolution from `parse_table` (parse_table.rs lines
38-50).  An absent attribute leaves the format untouched; a value is read
char by char: no first char reports the malformed-separator error with the
pattern `"separator"`, a second char reports it with the value itself as
the pattern, and exactly one char replaces the format's separator.
`err_at_pattern` is modelled from the spec as failing the table parse with
a `MalformedAttribute` diagnostic spanning the given pattern searched from
`meta.start`. -/
def resolve_separator (format : DataFormat) (metaStart : Nat) (sep : Option String) :
    Except Diagnostic DataFormat :=
  match sep with
  | none => .ok format
  | some s =>
    let msg := "Cell separator must be exactly one character"
    match s.toList with
    | [] => .error { msg := msg, span := .pattern metaStart "separator" }
    | ch :: rest =>
      let format := format.replace_separator ch
      match rest with
      | [] => .ok format
      | _ => .error { msg := msg, span := .pattern metaStart s }

/-- Initial header state from `parse_table` (parse_table.rs lines 80-86):
`header` option, else `noheader` option, else `FoundNone` when the
remaining contiguous lines of the block are not exactly one. -/
def initHeaderRow (hasHeaderOpt hasNoheaderOpt : Bool) (numLines : Nat) : HeaderRow :=
  if hasHeaderOpt then .ExplicitlySet
  else if hasNoheaderOpt then .ExplicitlyUnset
  else if numLines ≠ 1 then .FoundNone
  else .Unknown

/-- Inner loop of `split_paragraphs` (parse_table.rs lines 314-328): a
paragraph boundary occurs at a newline node when the current paragraph
already ends in a newline node; that trailing newline is removed and a new
paragraph is started. -/
def splitParagraphsGo : List Inline → List Inline → List (List Inline) → List (List Inline)
  | [], cur, done => done ++ [cur]
  | n :: rest, cur, done =>
    if n = Inline.Newline ∧ cur.getLast? = some Inline.Newline then
      splitParagraphsGo rest [] (done ++ [cur.dropLast])
    else
      splitParagraphsGo rest (cur ++ [n]) done

/-- `split_paragraphs` (parse_table.rs lines 309-330). -/
def split_paragraphs (nodes : List Inline) : List (List Inline) :=
  match nodes with
  | [] => []
  | _ => splitParagraphsGo nodes [] []

/-- `parse_non_asciidoc_cell` (parse_table.rs lines 280-307).  The line
construction, per-style trimming and substitution-set switch around the
general inline parser are collapsed into the external `parse_inlines`
collaborator, which receives the style and the raw tokens.  The
`AsciiDoc` arm is Rust `unreachable!`, i.e. a panic. -/
def Parser.parse_non_asciidoc_cell (p : Parser) (data : ParseCellData)
    (cell_style : CellContentStyle) : Except ParseErr Cell :=
  match (if data.cell_tokens.isEmpty then Except.ok ([] : List Inline)
         else p.parse_inlines cell_style data.cell_tokens) with
  | .error e => .error e
  | .ok nodes =>
    match cell_style with
    | .Default => .ok (Cell.mk (.Default (split_paragraphs nodes)) data.cell_spec data.col_spec)
    | .Emphasis => .ok (Cell.mk (.Emphasis (split_paragraphs nodes)) data.cell_spec data.col_spec)
    | .Header => .ok (Cell.mk (.Header (split_paragraphs nodes)) data.cell_spec data.col_spec)
    | .Monospace => .ok (Cell.mk (.Monospace (split_paragraphs nodes)) data.cell_spec data.col_spec)
    | .Strong => .ok (Cell.mk (.Strong (split_paragraphs nodes)) data.cell_spec data.col_spec)
    | .Literal => .ok (Cell.mk (.Literal nodes) data.cell_spec data.col_spec)
    | .AsciiDoc => .error (.Panic "Parser::finish_cell() asciidoc")

/-- One step of `reparse_header_cells` (parse_table.rs lines 261-276) on a
single cell: `AsciiDoc`/`Literal` content is rebuilt from the front of the
deferred-reparse buffer with style forced to `Default` (an exhausted buffer
is the Rust `remove(0)` panic); the paragraph-carrying styles are retagged
as `Default`; `Default` content is kept as is. -/
def Parser.reparse_cell (p : Parser) (c : Cell) (buf : List ParseCellData) :
    Except ParseErr (Cell × List ParseCellData) :=
  match c.content, buf with
  | .AsciiDoc _, [] => .error (.Panic "removal index (is 0) should be < len (is 0)")
  | .Literal _, [] => .error (.Panic "removal index (is 0) should be < len (is 0)")
  | .AsciiDoc _, data :: rest =>
    match p.parse_non_asciidoc_cell data .Default with
    | .error e => .error e
    | .ok cell => .ok ({ c with content := cell.content }, rest)
  | .Literal _, data :: rest =>
    match p.parse_non_asciidoc_cell data .Default with
    | .error e => .error e
    | .ok cell => .ok ({ c with content := cell.content }, rest)
  | .Emphasis paras, _ => .ok ({ c with content := .Default paras }, buf)
  | .Header paras, _ => .ok ({ c with content := .Default paras }, buf)
  | .Monospace paras, _ => .ok ({ c with content := .Default paras }, buf)
  | .Strong paras, _ => .ok ({ c with content := .Default paras }, buf)
  | .Default _, _ => .ok (c, buf)

/-- The cell loop of `reparse_header_cells`, threading the buffer. -/
def Parser.reparse_cells_go (p : Parser) :
    List Cell → List ParseCellData → Except ParseErr (List Cell × List ParseCellData)
  | [], buf => .ok ([], buf)
  | c :: rest, buf =>
    match p.reparse_cell c buf with
    | .error e => .error e
    | .ok (c', buf') =>
      match p.reparse_cells_go rest buf' with
      | .error e => .error e
      | .ok (cs, buf'') => .ok (c' :: cs, buf'')

/-- `reparse_header_cells` (parse_table.rs lines 256-278). -/
def Parser.reparse_header_cells (p : Parser) (row : Row) (ctx : TableContext) :
    Except ParseErr (Row × TableContext) :=
  match p.reparse_cells_go row.cells ctx.header_reparse_cells with
  | .error e => .error e
  | .ok (cells, buf) => .ok (Row.mk cells, { ctx with header_reparse_cells := buf })

/-- `push_table_row` (parse_table.rs lines 119-140). -/
def Parser.push_table_row (p : Parser) (row : Row) (ctx : TableContext) :
    Except ParseErr TableContext :=
  if ctx.table.rows.isEmpty ∧ ctx.table.header_row.isNone
      ∧ (ctx.header_row.known_to_exist ∨ ctx.can_infer_implicit_header) then
    if ctx.header_row.is_unknown then
      match p.reparse_header_cells row { ctx with header_row := .FoundImplicit } with
      | .error e => .error e
      | .ok (row', ctx2) =>
        .ok { ctx2 with table := { ctx2.table with header_row := some row' } }
    else
      .ok { ctx with table := { ctx.table with header_row := some row } }
  else
    let ctx1 := { ctx with table := { ctx.table with rows := ctx.table.rows ++ [row] } }
    .ok (if ctx1.header_row.is_unknown then { ctx1 with header_row := .FoundNone } else ctx1)

/-- `finish_implicit_header_row` (parse_table.rs lines 142-167). -/
def Parser.finish_implicit_header_row (p : Parser) (cells : List Cell)
    (ctx : TableContext) : Except ParseErr TableContext :=
  if cells.isEmpty then .ok ctx
  else
    let ctx := { ctx with effective_row_idx := ctx.effective_row_idx + 1 }
    let width := if ctx.autowidths then ColWidth.Auto else ColWidth.Proportional 1
    let ctx := { ctx with table := { ctx.table with col_widths := List.replicate ctx.num_cols width } }
    if ctx.header_row.known_to_exist ∨ ctx.can_infer_implicit_header then
      if ctx.header_row.is_unknown then
        match p.reparse_header_cells (Row.mk cells) { ctx with header_row := .FoundImplicit } with
        | .error e => .error e
        | .ok (row', ctx2) =>
          .ok { ctx2 with table := { ctx2.table with header_row := some row' } }
      else
        .ok { ctx with table := { ctx.table with header_row := some (Row.mk cells) } }
    else
      let ctx1 := { ctx with table := { ctx.table with rows := ctx.table.rows ++ [Row.mk cells] } }
      .ok (if ctx1.header_row.is_unknown then { ctx1 with header_row := .FoundNone } else ctx1)

/-- Inner loop of the trailing-whitespace strip of `finish_cell`
(parse_table.rs lines 187-192 and 198-200), on the reversed token list:
popped kinds are accumulated in pop order and each pop moves the span end
to the popped token's start. -/
def stripWsRevGo : List Token → List TokenKind → Nat → List Token × List TokenKind × Nat
  | [], ws, e => ([], ws, e)
  | t :: rest, ws, e =>
    if t.is_whitespaceish then stripWsRevGo rest (ws ++ [t.kind]) t.loc.start
    else (t :: rest, ws, e)

/-- Strip trailing whitespace/newline tokens from a cell's raw token span:
returns the kept tokens, the stripped kinds in pop order, and the updated
span end. -/
def strip_trailing_ws (tokens : List Token) (locEnd : Nat) :
    List Token × List TokenKind × Nat :=
  let r := stripWsRevGo tokens.reverse [] locEnd
  (r.1.reverse, r.2.1, r.2.2)

/-- The implicit-header signal (parse_table.rs line 193): at least two
stripped tokens and the last two stripped (in pop order) both newlines. -/
def wsSignalsHeader (ws : List TokenKind) : Prop :=
  ws.length > 1 ∧ ws.drop (ws.length - 2) = [TokenKind.Newline, TokenKind.Newline]

instance (ws : List TokenKind) : Decidable (wsSignalsHeader ws) := by
  unfold wsSignalsHeader; infer_instance

/-- `finish_cell` (parse_table.rs lines 169-247).  Returns the updated
parser and context plus `some (cell, repeat)` for a produced cell, or
`none` when an AsciiDoc-style cell failed its nested parse in lenient
mode.  The nested cell parser is the external `cellParser` collaborator,
receiving the stripped tokens and the cell's start offset. -/
def Parser.finish_cell (p : Parser) (cell_spec : CellSpec) (cell_tokens : List Token)
    (col_index : Nat) (ctx : TableContext) (loc : SourceLocation) :
    Except ParseErr (Parser × TableContext × Option (Cell × Nat)) :=
  let col_spec := ctx.col_specs.get? col_index
  let style0 := cell_spec.style.getD
    (match col_spec with | some col => col.style | none => CellContentStyle.Default)
  let cell_style :=
    if ctx.header_row.known_to_exist ∧ ctx.table.header_row.isNone
    then CellContentStyle.Default else style0
  let s := strip_trailing_ws cell_tokens loc.stop
  let cell_tokens := s.1
  let ws := s.2.1
  let loc : SourceLocation := { loc with stop := s.2.2 }
  let ctx :=
    if ctx.header_row.is_unknown then
      if wsSignalsHeader ws then { ctx with can_infer_implicit_header := true } else ctx
    else { ctx with can_infer_implicit_header := false }
  let rep := cell_spec.duplication.getD 1
  if cell_style = CellContentStyle.AsciiDoc then
    let data : ParseCellData :=
      { cell_tokens := cell_tokens, loc := loc, cell_spec := cell_spec, col_spec := col_spec }
    let ctx :=
      if ctx.header_row.is_unknown then
        { ctx with header_reparse_cells := ctx.header_reparse_cells ++ [data] }
      else ctx
    match p.cellParser cell_tokens loc.start with
    | .ok (document, warnings) =>
      let p := if warnings.isEmpty then p else { p with errors := p.errors ++ warnings }
      .ok (p, ctx,
        some (Cell.mk (CellContent.AsciiDoc document) cell_spec col_spec, rep))
    | .error diagnostics =>
      match diagnostics, p.strict with
      | d :: _, true => .error (.Diag d)
      | _, _ => .ok ({ p with errors := p.errors ++ diagnostics }, ctx, none)
  else
    let data : ParseCellData :=
      { cell_tokens := cell_tokens, loc := loc, cell_spec := cell_spec, col_spec := col_spec }
    let ctx :=
      if ctx.header_row.is_unknown ∧ cell_style = CellContentStyle.Literal then
        { ctx with header_reparse_cells := ctx.header_reparse_cells ++ [data] }
      else ctx
    match p.parse_non_asciidoc_cell data cell_style with
    | .ok cell => .ok (p, ctx, some (cell, rep))
    | .error e => .error e

/-- `newline_token` (parse_table.rs lines 379-385). -/
def newline_token (start : Nat) : Token :=
  { kind := .Newline, lexeme := "\n", loc := ⟨start, start + 1⟩ }

/-- Second loop of `table_content` (parse_table.rs lines 357-372) plus the
fall-through (lines 373-375): lines are pulled with `read_line` until one
whose raw text equals the opening delimiter's; at end of input the
"Table never closed" diagnostic is reported at the opening delimiter. -/
def Parser.table_content_read (p : Parser) (start_delim : Line) :
    List Line → List Token → Nat → Nat → Except ParseErr (Parser × TableTokens × Nat)
  | [], tokens, start, e =>
    match p.err_line "Table never closed, started here" start_delim with
    | .error er => .error er
    | .ok p' => .ok ({ p' with source_lines := [] }, TableTokens.mk tokens ⟨start, e⟩, e)
  | next :: rest, tokens, start, e =>
    let te := if tokens.isEmpty then (tokens, e) else (tokens ++ [newline_token e], e + 1)
    let tokens := te.1
    let e := te.2
    if next.src = start_delim.src then
      match next.loc with
      | some l => .ok ({ p with source_lines := rest }, TableTokens.mk tokens ⟨start, e⟩, l.stop)
      | none => .error (.Panic "Option unwrap on None")
    else
      let e := match next.last_loc with | some l => l.stop | none => e
      Parser.table_content_read p start_delim rest (tokens ++ next.tokens) start e

/-- First loop of `table_content` (parse_table.rs lines 340-356) over the
block's remaining contiguous lines; a closing line hands the rest back via
`restore_lines`, exhaustion continues with `read_line`. -/
def Parser.table_content_chunk (p : Parser) (start_delim : Line) :
    List Line → List Token → Nat → Nat → Except ParseErr (Parser × TableTokens × Nat)
  | [], tokens, start, e => p.table_content_read start_delim p.source_lines tokens start e
  | line :: rest, tokens, start, e =>
    if line.src = start_delim.src then
      match line.loc with
      | some l => .ok ({ p with restored := rest }, TableTokens.mk tokens ⟨start, e⟩, l.stop)
      | none => .error (.Panic "Option unwrap on None")
    else
      let e1 := match line.last_loc with | some l => l.stop | none => e
      let tokens1 := tokens ++ line.tokens
      let te := if rest.isEmpty then (tokens1, e1) else (tokens1 ++ [newline_token e1], e1 + 1)
      Parser.table_content_chunk p start_delim rest te.1 start te.2

/-- `table_content` (parse_table.rs lines 331-376). -/
def Parser.table_content (p : Parser) (lines : List Line) (start_delim : Line) :
    Except ParseErr (Parser × TableTokens × Nat) :=
  match start_delim.last_loc with
  | none => .error (.Panic "Option unwrap on None")
  | some dl => p.table_content_chunk start_delim lines [] (dl.stop + 1) (dl.stop + 1)

/-- One interaction of the row parsers with the shared context: finishing a
cell of the row in progress (the produced cell goes into the row being
assembled by the external grammar parser) or pushing a completed row. -/
inductive RowOp
  | cellOp (spec : CellSpec) (tokens : List Token) (colIdx : Nat) (loc : SourceLocation)
  | rowOp (r : Row)

/-- Apply one `RowOp` to the threaded parser/context state. -/
def Parser.apply_row_op (p : Parser) (ctx : TableContext) :
    RowOp → Except ParseErr (Parser × TableContext)
  | .cellOp s ts i l =>
    match p.finish_cell s ts i ctx l with
    | .error e => .error e
    | .ok (p', ctx', _) => .ok (p', ctx')
  | .rowOp r =>
    match p.push_table_row r ctx with
    | .error e => .error e
    | .ok ctx' => .ok (p, ctx')

/-- Run a sequence of row operations, as the row loop of `parse_table`
does (lines 97-105), with cell finishing interleaved by the grammar
parsers. -/
def Parser.run_row_ops (p : Parser) (ctx : TableContext) :
    List RowOp → Except ParseErr (Parser × TableContext)
  | [] => .ok (p, ctx)
  | op :: rest =>
    match p.apply_row_op ctx op with
    | .error e => .error e
    | .ok (p', ctx') => Parser.run_row_ops p' ctx' rest

/-- Modelled from the spec: the implicit first-row pass of the psv/dsv row
parsers fixes the column count at the number of cells the first parsed row
contains, then finishes the row through `finish_implicit_header_row`. -/
def Parser.implicit_first_row (p : Parser) (cells : List Cell) (ctx : TableContext) :
    Except ParseErr TableContext :=
  p.finish_implicit_header_row cells { ctx with num_cols := cells.length }

/-- The row-consumption skeleton of `parse_table` (lines 88-105): the
implicit-first-row pass when counting columns, then rows pushed one at a
time.  The grammar parsers that produce the cells and rows are external
collaborators, so the driver takes their outputs as data. -/
def Parser.parse_table_body (p : Parser) (implicitCells : Option (List Cell))
    (ops : List RowOp) (ctx : TableContext) : Except ParseErr (Parser × TableContext) :=
  match implicitCells with
  | none => Parser.run_row_ops p ctx ops
  | some cells =>
    match p.implicit_first_row cells ctx with
    | .error e => .error e
    | .ok ctx' => Parser.run_row_ops p ctx' ops

/-- Modelled from the spec: `ColWidths::distribute` — `Auto` columns
contribute no explicit width, `Proportional(weight)` columns are
normalized to a percentage of the total weight across all columns,
declared percentages pass through. -/
inductive DistributedColWidth
  | auto
  | percentage (value : ℚ)
  deriving DecidableEq, Repr

/-- Modelled from the spec: the width distribution feeding the renderer. -/
def distribute (ws : List ColWidth) : List DistributedColWidth :=
  let total : ℚ := (ws.map fun w => match w with | .Proportional n => (n : ℚ) | _ => 0).sum
  ws.map fun w =>
    match w with
    | .Auto => .auto
    | .Proportional n => .percentage (100 * (n : ℚ) / total)
    | .Percentage v => .percentage v

/-- The colgroup emission of `enter_table` (asciidoctor_html.rs lines
557-578): per column, the explicit width style emitted, if any (`none`
when the block has the `autowidth` option or the distributed width is
auto). -/
def colgroupWidthStyles (col_widths : List ColWidth) (autowidth : Bool) :
    List (Option ℚ) :=
  (distribute col_widths).map fun dw =>
    if autowidth then none
    else match dw with
      | .auto => none
      | .percentage q => some q

/-! Concrete instances used to exercise the embedding on closed inputs. -/

/-- An inline parser turning each token into a text node. -/
def exampleInlineParser : CellContentStyle → List Token → Except ParseErr (List Inline) :=
  fun _ ts => .ok (ts.map fun t => Inline.Text t.lexeme)

/-- A nested cell parser that always succeeds without warnings. -/
def exampleCellParser : List Token → Nat → Except (List Diagnostic) (AdocDocument × List Diagnostic) :=
  fun _ _ => .ok (AdocDocument.mk "doc", [])

/-- A lenient parser with no pending errors or input lines. -/
def pLenient : Parser :=
  { strict := false, errors := [], source_lines := [], restored := [],
    parse_inlines := exampleInlineParser, cellParser := exampleCellParser }

/-- The strict twin of `pLenient`. -/
def pStrict : Parser := { pLenient with strict := true }

/-- A diagnostic as a failing nested cell parse would produce it. -/
def diagNested : Diagnostic := { msg := "invalid nested markup", span := .pattern 9 "[" }

/-- A parser whose nested cell parses always fail with `diagNested`. -/
def pNestedFail : Parser := { pLenient with cellParser := fun _ _ => .error [diagNested] }

/-- The strict twin of `pNestedFail`. -/
def pNestedFailStrict : Parser := { pNestedFail with strict := true }

/-- The empty table every parse starts from (parse_table.rs lines 72-77). -/
def emptyTable : Table := { col_widths := [], header_row := none, rows := [], footer_row := none }

/-- A fresh context for a `|===`-delimited table with no cols attribute. -/
def baseCtx : TableContext :=
  { delim_ch := '|', format := .Prefix '|', cell_separator := '|', num_cols := 0,
    counting_cols := true, col_specs := [], header_row := .Unknown,
    header_reparse_cells := [], autowidths := false,
    can_infer_implicit_header := false, effective_row_idx := 0, table := emptyTable }

/-- A cell with already-resolved default content. -/
def cellDe : Cell := { content := .Default [], spec := {}, col_spec := none }

/-- A cell with strong-styled content. -/
def cellSt : Cell := { content := .Strong [[Inline.Text "b"]], spec := {}, col_spec := none }

/-- A word token at offset `s`. -/
def wordTok (s : Nat) : Token := { kind := .Word, lexeme := "w", loc := ⟨s, s + 1⟩ }

/-- A newline token at offset `s` as the lexer produces it. -/
def nlTok (s : Nat) : Token := { kind := .Newline, lexeme := "\n", loc := ⟨s, s + 1⟩ }

/-- The opening delimiter line `|===` at offset 0. -/
def delimLine : Line :=
  { src := "|===", tokens := [{ kind := .Word, lexeme := "|===", loc := ⟨0, 4⟩ }] }

/-- A one-word body line (not a closing delimiter) at offsets 5-6. -/
def bodyLine : Line := { src := "|w", tokens := [wordTok 5] }

/-- `baseCtx` with the header state of a `header`-option block. -/
def ctxExplicitHeader : TableContext := { baseCtx with header_row := .ExplicitlySet }

/-- `baseCtx` after an implicit header has been found. -/
def ctxFoundImplicit : TableContext := { baseCtx with header_row := .FoundImplicit }

/-- The cell `finish_cell` produces from one word token under a forced
default style with `exampleInlineParser`. -/
def cellW : Cell := { content := .Default [[Inline.Text "w"]], spec := {}, col_spec := none }

/-- The default-content cell the reparse produces from `cellSt`. -/
def cellW2 : Cell := { content := .Default [[Inline.Text "b"]], spec := {}, col_spec := none }

/-- A cell spec carrying an explicit AsciiDoc style marker. -/
def specAdoc : CellSpec := { duplication := none, style := some .AsciiDoc }

/-- A cell spec carrying an explicit Literal style marker. -/
def specLit : CellSpec := { duplication := none, style := some .Literal }

/-- `baseCtx` in the `FoundNone` state (multi-line body, no options). -/
def ctxFoundNone : TableContext := { baseCtx with header_row := .FoundNone }

/-- `baseCtx` with the implicit-header flag raised. -/
def ctxCanInfer : TableContext := { baseCtx with can_infer_implicit_header := true }

/-- The deferred-reparse record `finish_cell` buffers for a literal cell
made of one word token followed by two newlines. -/
def dataLit : ParseCellData :=
  { cell_tokens := [wordTok 5], loc := ⟨5, 6⟩, cell_spec := specLit, col_spec := none }

/-- `baseCtx` after finishing that literal cell: flag raised, record buffered. -/
def ctxLitAfter : TableContext :=
  { baseCtx with can_infer_implicit_header := true, header_reparse_cells := [dataLit] }

/-- The literal-content cell produced from that token list. -/
def cellLit : Cell :=
  { content := .Literal [Inline.Text "w"], spec := specLit, col_spec := none }

/-- The context after the implicit first-row pass of a two-cell row under
`FoundNone` without autowidth. -/
def ctxC9After : TableContext :=
  { ctxFoundNone with
    num_cols := 2,
    effective_row_idx := 1,
    table := { emptyTable with
               col_widths := [.Proportional 1, .Proportional 1],
               rows := [Row.mk [cellDe, cellDe]] } }


/-- The rows recorded by a sequence of row operations, in order. -/
def opRows : List RowOp → List Row
  | [] => []
  | RowOp.cellOp _ _ _ _ :: rest => opRows rest
  | RowOp.rowOp r :: rest => r :: opRows rest

/-- All rows a table-body run records: the implicit first row (when its
cell list is non-empty) followed by the pushed rows. -/
def inputRows (implicitCells : Option (List Cell)) (ops : List RowOp) : List Row :=
  (match implicitCells with
   | some cs => if cs.isEmpty then [] else [Row.mk cs]
   | none => []) ++ opRows ops

/-- The reachable-state invariant of the header machinery: the header row
is populated only in a known-to-exist state; the inferred-header flag is
raised only while the state is still `Unknown` (or after the header was
recorded, where it is inert); while `Unknown` nothing has been committed
to the table yet. -/
def HeaderInv (ctx : TableContext) : Prop :=
  (ctx.table.header_row.isSome = true → ctx.header_row.known_to_exist = true)
  ∧ (ctx.can_infer_implicit_header = true →
      (ctx.header_row.is_unknown = true ∨ ctx.table.header_row.isSome = true))
  ∧ (ctx.header_row.is_unknown = true →
      ctx.table.rows = [] ∧ ctx.table.header_row = none)

instance (ctx : TableContext) : Decidable (HeaderInv ctx) := by
  unfold HeaderInv; infer_instance

/-- The invariant of a table that can never acquire a header: settled
negative state, flag down, no header recorded. -/
def NoHeaderInv (ctx : TableContext) : Prop :=
  (ctx.header_row = .FoundNone ∨ ctx.header_row = .ExplicitlyUnset)
  ∧ ctx.can_infer_implicit_header = false
  ∧ ctx.table.header_row = none

/-- A one-cell row of default content. -/
def rowDe : Row := Row.mk [cellDe]

/-- A one-cell row of strong content. -/
def rowSt : Row := Row.mk [cellSt]

/-- The context after pushing `rowDe` then `rowSt` under `ExplicitlySet`:
the first row became the header, the second a body row. -/
def ctxC1After : TableContext :=
  { ctxExplicitHeader with
    table := { emptyTable with header_row := some rowDe, rows := [rowSt] } }

/-- The context after pushing `rowDe` under `FoundNone`: a body row only. -/
def ctxC7After : TableContext :=
  { ctxFoundNone with table := { emptyTable with rows := [rowDe] } }

/-- The diagnostic `table_content` reports when the closing delimiter is
never found, pointing at the opening delimiter line. -/
def neverClosedDiag (delim : Line) : Diagnostic :=
  { msg := "Table never closed, started here", span := .line delim.src delim.loc }

/-! # Theorems -/

/-- `reparse_header_cells` only consumes the deferred-reparse buffer: on
success the context is unchanged except for `header_reparse_cells`. -/
theorem reparse_header_cells_ok_frame {p : Parser} {row row' : Row}
    {ctx ctx' : TableContext}
    (h : p.reparse_header_cells row ctx = .ok (row', ctx')) :
    ctx' = { ctx with header_reparse_cells := ctx'.header_reparse_cells } := by
  unfold Parser.reparse_header_cells at h
  cases hg : p.reparse_cells_go row.cells ctx.header_reparse_cells with
  | error e => rw [hg] at h; exact absurd h (by simp)
  | ok pr =>
    rw [hg] at h
    cases pr with
    | mk cells buf =>
      simp only [Except.ok.injEq, Prod.mk.injEq] at h
      rw [← h.2]

/-- C10 auxiliary computation check: the empty-cells early return of
`finish_implicit_header_row` (parse_table.rs lines 147-149). -/
theorem finish_implicit_empty_eq (p : Parser) (ctx : TableContext) :
    p.finish_implicit_header_row [] ctx = .ok ctx := rfl

/-- C10: called with an empty cell list, `finish_implicit_header_row`
succeeds and returns the context completely unchanged: no row or header row
is added, `col_widths` is not overwritten, the effective row index is not
incremented, and the header state is untouched. -/
theorem finish_implicit_header_row_empty_is_noop (p : Parser) (ctx : TableContext) :
    p.finish_implicit_header_row [] ctx = .ok ctx
    ∧ ∀ ctx', p.finish_implicit_header_row [] ctx = .ok ctx' →
        ctx'.table = ctx.table ∧ ctx'.table.col_widths = ctx.table.col_widths
        ∧ ctx'.effective_row_idx = ctx.effective_row_idx
        ∧ ctx'.header_row = ctx.header_row := by
  refine ⟨rfl, fun ctx' h => ?_⟩
  rw [finish_implicit_empty_eq] at h
  cases h
  exact ⟨rfl, rfl, rfl, rfl⟩

/-- C3: evaluation of the format selector at the `psv` attribute.  The
code maps `format=psv` to `Csv('|')`, not `Prefix('|')`: it disagrees with
the delimiter-inference arm of the same match, which maps the default `|`
delimiter to `Prefix('|')`, and with the glossary (PSV is the
prefix-separated grammar), so an explicit `[format=psv]` changes the
grammar kind even though `psv` names the default format. -/
theorem resolve_format_psv_evaluation :
    resolve_format (some "psv") '|' = DataFormat.Csv '|'
    ∧ resolve_format none '|' = DataFormat.Prefix '|'
    ∧ resolve_format (some "csv") '|' = DataFormat.Csv ','
    ∧ resolve_format (some "tsv") '|' = DataFormat.Csv '\t'
    ∧ resolve_format (some "dsv") '|' = DataFormat.Delimited ':'
    ∧ resolve_format none ':' = DataFormat.Delimited ':'
    ∧ resolve_format none ',' = DataFormat.Delimited ','
    ∧ resolve_format none '!' = DataFormat.Prefix '!'
    ∧ resolve_format none 'x' = DataFormat.Prefix 'x'
    ∧ (resolve_format (some "psv") '|').kind ≠ (resolve_format none '|').kind := by
  refine ⟨rfl, rfl, rfl, rfl, rfl, rfl, rfl, rfl, rfl, ?_⟩
  decide

/-- C4 counterexample: for the zero-length separator value the reported
diagnostic's span is the span of the attribute name `separator` (the
pattern handed to `err_at_pattern`, parse_table.rs line 42), not the span
of the empty value — matching the repository's own `empty_cell_separator`
test, whose carets sit under the word `separator`. -/
theorem resolve_separator_empty_span_is_attr_name :
    resolve_separator (DataFormat.Prefix '|') 1 (some "") =
      Except.error { msg := "Cell separator must be exactly one character",
                     span := DiagSpan.pattern 1 "separator" }
    ∧ DiagSpan.pattern 1 "separator" ≠ DiagSpan.pattern 1 "" := by
  exact ⟨rfl, by decide⟩

/-- C4 (amended): a one-character separator value succeeds, replacing the
format's separator and keeping its grammar kind; a zero-length value fails
with the malformed-separator diagnostic whose span is the attribute name
`separator`; a multi-character value fails with the same message, span
covering the value. -/
theorem resolve_separator_spec (fmt : DataFormat) (m : Nat) :
    (∀ c : Char,
        resolve_separator fmt m (some (String.mk [c])) = .ok (fmt.replace_separator c)
        ∧ (fmt.replace_separator c).kind = fmt.kind
        ∧ (fmt.replace_separator c).separator = c)
    ∧ resolve_separator fmt m none = .ok fmt
    ∧ resolve_separator fmt m (some "") =
        .error { msg := "Cell separator must be exactly one character",
                 span := .pattern m "separator" }
    ∧ ∀ s : String, 2 ≤ s.toList.length →
        resolve_separator fmt m (some s) =
          .error { msg := "Cell separator must be exactly one character",
                   span := .pattern m s } := by
  refine ⟨fun c => ?_, rfl, rfl, fun s hs => ?_⟩
  · cases fmt <;> exact ⟨rfl, rfl, rfl⟩
  · cases hd : s.toList with
    | nil => rw [hd] at hs; simp at hs
    | cons a rest =>
      cases rest with
      | nil => rw [hd] at hs; simp at hs
      | cons b t =>
        simp only [resolve_separator, hd]

/-- C4 witness: the amended statement exercised at `fmt = Delimited ':'`,
`m = 3`, the one-character value `;` and the two-character value `||`. -/
theorem resolve_separator_spec_witness :
    resolve_separator (DataFormat.Delimited ':') 3 (some (String.mk [';'])) =
      .ok (DataFormat.Delimited ';')
    ∧ 2 ≤ ("||" : String).toList.length
    ∧ resolve_separator (DataFormat.Delimited ':') 3 (some "||") =
        .error { msg := "Cell separator must be exactly one character",
                 span := .pattern 3 "||" } := by
  refine ⟨((resolve_separator_spec (DataFormat.Delimited ':') 3).1 ';').1, by decide, ?_⟩
  exact (resolve_separator_spec (DataFormat.Delimited ':') 3).2.2.2 "||" (by decide)

/-- A successful `parse_non_asciidoc_cell` with style `Default` yields
`Default` content and keeps the buffered specs. -/
theorem parse_non_asciidoc_default_shape {p : Parser} {data : ParseCellData} {cell : Cell}
    (h : p.parse_non_asciidoc_cell data .Default = .ok cell) :
    (∃ paras, cell.content = CellContent.Default paras)
    ∧ cell.spec = data.cell_spec ∧ cell.col_spec = data.col_spec := by
  unfold Parser.parse_non_asciidoc_cell at h
  cases hn : (if data.cell_tokens.isEmpty then Except.ok ([] : List Inline)
              else p.parse_inlines .Default data.cell_tokens) with
  | error e => rw [hn] at h; cases h
  | ok nodes => rw [hn] at h; cases h; exact ⟨⟨_, rfl⟩, rfl, rfl⟩

/-- Each reparsed header cell ends up with `Default` content, whichever
original content variant it had. -/
theorem reparse_cell_default {p : Parser} {c c' : Cell} {buf buf' : List ParseCellData}
    (h : p.reparse_cell c buf = .ok (c', buf')) :
    ∃ paras, c'.content = CellContent.Default paras := by
  unfold Parser.reparse_cell at h
  split at h
  · cases h
  · cases h
  · split at h
    · cases h
    · rename_i cell hp
      cases h
      exact (parse_non_asciidoc_default_shape hp).1
  · split at h
    · cases h
    · rename_i cell hp
      cases h
      exact (parse_non_asciidoc_default_shape hp).1
  · cases h; exact ⟨_, rfl⟩
  · cases h; exact ⟨_, rfl⟩
  · cases h; exact ⟨_, rfl⟩
  · cases h; exact ⟨_, rfl⟩
  · cases h
    exact ⟨_, by assumption⟩

/-- Every cell produced by the reparse loop has `Default` content. -/
theorem reparse_cells_go_default {p : Parser} :
    ∀ (cells : List Cell) (buf : List ParseCellData) (cells' : List Cell)
      (buf' : List ParseCellData),
    p.reparse_cells_go cells buf = .ok (cells', buf') →
    ∀ c ∈ cells', ∃ paras, c.content = CellContent.Default paras := by
  intro cells
  induction cells with
  | nil =>
    intro buf cells' buf' h c hc
    unfold Parser.reparse_cells_go at h
    cases h
    simp at hc
  | cons hd tl ih =>
    intro buf cells' buf' h c hc
    unfold Parser.reparse_cells_go at h
    split at h
    · cases h
    · rename_i c1 buf1 h1
      split at h
      · cases h
      · rename_i cs buf2 h2
        cases h
        rw [List.mem_cons] at hc
        rcases hc with rfl | hc
        · exact reparse_cell_default h1
        · exact ih buf1 cs _ h2 c hc

/-- When the header state already guarantees the row in progress is the
header (`known_to_exist`) and no header row has been recorded yet,
`finish_cell` forces the style to `Default` (parse_table.rs lines 182-184):
a successful call yields a cell and that cell has `Default` content. -/
theorem finish_cell_forced_default_shape {p p' : Parser} {spec : CellSpec}
    {tokens : List Token} {i : Nat} {ctx ctx' : TableContext} {loc : SourceLocation}
    {res : Option (Cell × Nat)}
    (hknown : ctx.header_row.known_to_exist = true)
    (hnone : ctx.table.header_row = none)
    (h : p.finish_cell spec tokens i ctx loc = .ok (p', ctx', res)) :
    ∃ cell rep, res = some (cell, rep)
      ∧ ∃ paras, cell.content = CellContent.Default paras := by
  unfold Parser.finish_cell at h
  simp only [hknown, hnone, Option.isNone_none, and_self, if_true, reduceCtorEq,
    and_false, if_false, reduceIte] at h
  split at h
  · rename_i cell hp
    cases h
    exact ⟨cell, _, rfl, (parse_non_asciidoc_default_shape hp).1⟩
  · cases h

/-- A successful `reparse_header_cells` leaves every cell of the resulting
row with `Default` content. -/
theorem reparse_header_cells_all_default {p : Parser} {row row' : Row}
    {ctx ctx' : TableContext}
    (h : p.reparse_header_cells row ctx = .ok (row', ctx')) :
    ∀ c ∈ row'.cells, ∃ paras, c.content = CellContent.Default paras := by
  unfold Parser.reparse_header_cells at h
  cases hg : p.reparse_cells_go row.cells ctx.header_reparse_cells with
  | error e => rw [hg] at h; cases h
  | ok pr =>
    rw [hg] at h
    obtain ⟨cells, buf⟩ := pr
    cases h
    exact reparse_cells_go_default row.cells ctx.header_reparse_cells cells buf hg

/-- C2: for the populated header row, every cell carries Default-styled
content — when the header state already guarantees the row in progress is
the header and no header row has been recorded yet, cell style resolution
is forced to `Default` regardless of cell/column style markers, and when
the header is discovered implicitly after the fact, the reparse converts
every cell of the promoted row to `Default` content. -/
theorem header_row_cells_are_default :
    (∀ (p p' : Parser) (spec : CellSpec) (tokens : List Token) (i : Nat)
        (ctx ctx' : TableContext) (loc : SourceLocation) (res : Option (Cell × Nat)),
        ctx.header_row.known_to_exist = true →
        ctx.table.header_row = none →
        p.finish_cell spec tokens i ctx loc = .ok (p', ctx', res) →
        ∃ cell rep, res = some (cell, rep)
          ∧ ∃ paras, cell.content = CellContent.Default paras)
    ∧ (∀ (p : Parser) (row row' : Row) (ctx ctx' : TableContext),
        p.reparse_header_cells row ctx = .ok (row', ctx') →
        ∀ c ∈ row'.cells, ∃ paras, c.content = CellContent.Default paras) :=
  ⟨fun _ _ _ _ _ _ _ _ _ h1 h2 h3 => finish_cell_forced_default_shape h1 h2 h3,
   fun _ _ _ _ _ h => reparse_header_cells_all_default h⟩

/-- C2 witness: the two mechanisms exercised on concrete inputs — a word
cell finished under `ExplicitlySet` with an empty table, and the reparse of
a `Strong`-content row after `FoundImplicit` was entered. -/
theorem header_row_cells_are_default_witness :
    (∃ cell rep, (some (cellW, 1) : Option (Cell × Nat)) = some (cell, rep)
      ∧ ∃ paras, cell.content = CellContent.Default paras)
    ∧ ∀ c ∈ (Row.mk [cellW2]).cells, ∃ paras, c.content = CellContent.Default paras := by
  constructor
  · exact header_row_cells_are_default.1 pLenient pLenient {} [wordTok 5] 0
      ctxExplicitHeader ctxExplicitHeader ⟨5, 6⟩ (some (cellW, 1)) rfl rfl rfl
  · exact header_row_cells_are_default.2 pLenient (Row.mk [cellSt]) (Row.mk [cellW2])
      ctxFoundImplicit ctxFoundImplicit rfl

/-- C5: failure handling of the AsciiDoc-style nested cell parse
(parse_table.rs lines 204-233): in strict mode the first diagnostic is
propagated aborting the table parse; in lenient mode the diagnostics are
appended to the shared sink and no cell is produced (the cell is omitted,
`finish_cell` returns `none` and the row loop continues); on success the
warnings are merged into the sink and the cell carries the nested
document. -/
theorem asciidoc_cell_failure_handling :
    (∀ (p : Parser) (spec : CellSpec) (tokens : List Token) (i : Nat)
        (ctx : TableContext) (loc : SourceLocation) (d : Diagnostic) (ds : List Diagnostic),
        spec.style = some CellContentStyle.AsciiDoc →
        ¬(ctx.header_row.known_to_exist = true ∧ ctx.table.header_row.isNone = true) →
        p.strict = true →
        (∀ ts n, p.cellParser ts n = .error (d :: ds)) →
        p.finish_cell spec tokens i ctx loc = .error (.Diag d))
    ∧ (∀ (p : Parser) (spec : CellSpec) (tokens : List Token) (i : Nat)
        (ctx : TableContext) (loc : SourceLocation) (ds : List Diagnostic),
        spec.style = some CellContentStyle.AsciiDoc →
        ¬(ctx.header_row.known_to_exist = true ∧ ctx.table.header_row.isNone = true) →
        p.strict = false →
        (∀ ts n, p.cellParser ts n = .error ds) →
        ∃ ctx', p.finish_cell spec tokens i ctx loc =
          .ok ({ p with errors := p.errors ++ ds }, ctx', none))
    ∧ (∀ (p : Parser) (spec : CellSpec) (tokens : List Token) (i : Nat)
        (ctx : TableContext) (loc : SourceLocation) (doc : AdocDocument)
        (warnings : List Diagnostic),
        spec.style = some CellContentStyle.AsciiDoc →
        ¬(ctx.header_row.known_to_exist = true ∧ ctx.table.header_row.isNone = true) →
        (∀ ts n, p.cellParser ts n = .ok (doc, warnings)) →
        ∃ p' ctx' rep, p.finish_cell spec tokens i ctx loc =
          .ok (p', ctx',
               some (Cell.mk (CellContent.AsciiDoc doc) spec (ctx.col_specs.get? i), rep))
          ∧ p'.errors = p.errors ++ warnings) := by
  refine ⟨?_, ?_, ?_⟩
  · intro p spec tokens i ctx loc d ds hsty hnf hstrict hcp
    unfold Parser.finish_cell
    simp only [hsty, Option.getD_some, if_neg hnf, hcp, hstrict, reduceIte]
  · intro p spec tokens i ctx loc ds hsty hnf hstrict hcp
    unfold Parser.finish_cell
    simp only [hsty, Option.getD_some, if_neg hnf, hcp, hstrict, reduceIte]
    cases ds with
    | nil => exact ⟨_, rfl⟩
    | cons a l => exact ⟨_, rfl⟩
  · intro p spec tokens i ctx loc doc warnings hsty hnf hcp
    unfold Parser.finish_cell
    simp only [hsty, Option.getD_some, if_neg hnf, hcp, reduceIte]
    cases warnings with
    | nil => exact ⟨p, _, spec.duplication.getD 1, rfl, by simp⟩
    | cons a l => exact ⟨_, _, spec.duplication.getD 1, rfl, rfl⟩

/-- C5 witness: the three scenarios on concrete parsers — a strict parser
whose nested parses fail, its lenient twin, and a parser whose nested
parses succeed without warnings. -/
theorem asciidoc_cell_failure_handling_witness :
    pNestedFailStrict.finish_cell specAdoc [] 0 baseCtx ⟨0, 0⟩ = .error (.Diag diagNested)
    ∧ (∃ ctx', pNestedFail.finish_cell specAdoc [] 0 baseCtx ⟨0, 0⟩ =
        .ok ({ pNestedFail with errors := pNestedFail.errors ++ [diagNested] }, ctx', none))
    ∧ (∃ p' ctx' rep, pLenient.finish_cell specAdoc [] 0 baseCtx ⟨0, 0⟩ =
        .ok (p', ctx',
          some (Cell.mk (CellContent.AsciiDoc ⟨"doc"⟩) specAdoc (baseCtx.col_specs.get? 0), rep))
        ∧ p'.errors = pLenient.errors ++ []) := by
  refine ⟨?_, ?_, ?_⟩
  · exact asciidoc_cell_failure_handling.1 pNestedFailStrict specAdoc [] 0 baseCtx ⟨0, 0⟩
      diagNested [] rfl (by decide) rfl (fun _ _ => rfl)
  · exact asciidoc_cell_failure_handling.2.1 pNestedFail specAdoc [] 0 baseCtx ⟨0, 0⟩
      [diagNested] rfl (by decide) rfl (fun _ _ => rfl)
  · exact asciidoc_cell_failure_handling.2.2 pLenient specAdoc [] 0 baseCtx ⟨0, 0⟩
      ⟨"doc"⟩ [] rfl (by decide) (fun _ _ => rfl)

/-- A state that is `Unknown` is never `known_to_exist`. -/
theorem hr_unknown_not_known {s : HeaderRow} (h : s.is_unknown = true) :
    s.known_to_exist = false := by
  cases s <;> simp_all [HeaderRow.is_unknown, HeaderRow.known_to_exist]

/-- While the header state is `Unknown`, `finish_cell` raises the
can-infer-implicit-header flag exactly when the strip signal holds
(parse_table.rs lines 186-195). -/
theorem finish_cell_flag_unknown {p p' : Parser} {spec : CellSpec}
    {tokens : List Token} {i : Nat} {ctx ctx' : TableContext} {loc : SourceLocation}
    {res : Option (Cell × Nat)}
    (hunk : ctx.header_row.is_unknown = true)
    (h : p.finish_cell spec tokens i ctx loc = .ok (p', ctx', res)) :
    (ctx'.can_infer_implicit_header = true ↔
      (ctx.can_infer_implicit_header = true
        ∨ wsSignalsHeader (strip_trailing_ws tokens loc.stop).2.1)) := by
  unfold Parser.finish_cell at h
  simp only [hunk, hr_unknown_not_known hunk, Bool.false_eq_true, false_and, if_false,
    reduceIte] at h
  repeat'
    first
      | split at h
      | (cases h <;> simp [*])

/-- Once the header state is settled, `finish_cell` clears the flag
(parse_table.rs lines 196-200). -/
theorem finish_cell_flag_committed {p p' : Parser} {spec : CellSpec}
    {tokens : List Token} {i : Nat} {ctx ctx' : TableContext} {loc : SourceLocation}
    {res : Option (Cell × Nat)}
    (hunk : ctx.header_row.is_unknown = false)
    (h : p.finish_cell spec tokens i ctx loc = .ok (p', ctx', res)) :
    ctx'.can_infer_implicit_header = false := by
  unfold Parser.finish_cell at h
  simp only [hunk, Bool.false_eq_true, false_and, if_false, reduceIte] at h
  repeat'
    first
      | split at h
      | (cases h <;> simp [*])

/-- A literal-style cell finished while the state is `Unknown` buffers its
stripped raw token span (parse_table.rs lines 242-244): the recorded
`ParseCellData` carries the tokens after the trailing-whitespace strip and
the tightened span end. -/
theorem finish_cell_literal_buffer {p p' : Parser} {spec : CellSpec}
    {tokens : List Token} {i : Nat} {ctx ctx' : TableContext} {loc : SourceLocation}
    {res : Option (Cell × Nat)}
    (hunk : ctx.header_row.is_unknown = true)
    (hsty : spec.style = some CellContentStyle.Literal)
    (h : p.finish_cell spec tokens i ctx loc = .ok (p', ctx', res)) :
    ctx'.header_reparse_cells = ctx.header_reparse_cells ++
      [{ cell_tokens := (strip_trailing_ws tokens loc.stop).1,
         loc := { start := loc.start, stop := (strip_trailing_ws tokens loc.stop).2.2 },
         cell_spec := spec, col_spec := ctx.col_specs.get? i }] := by
  unfold Parser.finish_cell at h
  simp only [hunk, hr_unknown_not_known hunk, hsty, Option.getD_some, Bool.false_eq_true,
    false_and, if_false, reduceIte, reduceCtorEq] at h
  repeat'
    first
      | split at h
      | (cases h <;> simp [*])
      | simp_all

/-- C6: finalizing a cell strips its trailing whitespace/newline tokens,
and while the header state is `Unknown` the can-infer-implicit-header flag
is set exactly when the stripped run has at least two tokens and the last
two stripped (in pop order) are both newlines; once the state is settled,
finalizing a cell clears the flag instead.  The stripped span is the one
recorded for a possible reparse. -/
theorem finish_cell_strip_and_flag :
    (∀ (p p' : Parser) (spec : CellSpec) (tokens : List Token) (i : Nat)
        (ctx ctx' : TableContext) (loc : SourceLocation) (res : Option (Cell × Nat)),
        ctx.header_row.is_unknown = true →
        p.finish_cell spec tokens i ctx loc = .ok (p', ctx', res) →
        (ctx'.can_infer_implicit_header = true ↔
          (ctx.can_infer_implicit_header = true
            ∨ wsSignalsHeader (strip_trailing_ws tokens loc.stop).2.1)))
    ∧ (∀ (p p' : Parser) (spec : CellSpec) (tokens : List Token) (i : Nat)
        (ctx ctx' : TableContext) (loc : SourceLocation) (res : Option (Cell × Nat)),
        ctx.header_row.is_unknown = false →
        p.finish_cell spec tokens i ctx loc = .ok (p', ctx', res) →
        ctx'.can_infer_implicit_header = false)
    ∧ (∀ (p p' : Parser) (spec : CellSpec) (tokens : List Token) (i : Nat)
        (ctx ctx' : TableContext) (loc : SourceLocation) (res : Option (Cell × Nat)),
        ctx.header_row.is_unknown = true →
        spec.style = some CellContentStyle.Literal →
        p.finish_cell spec tokens i ctx loc = .ok (p', ctx', res) →
        ctx'.header_reparse_cells = ctx.header_reparse_cells ++
          [{ cell_tokens := (strip_trailing_ws tokens loc.stop).1,
             loc := { start := loc.start, stop := (strip_trailing_ws tokens loc.stop).2.2 },
             cell_spec := spec, col_spec := ctx.col_specs.get? i }]) :=
  ⟨fun _ _ _ _ _ _ _ _ _ h1 h2 => finish_cell_flag_unknown h1 h2,
   fun _ _ _ _ _ _ _ _ _ h1 h2 => finish_cell_flag_committed h1 h2,
   fun _ _ _ _ _ _ _ _ _ h1 h2 h3 => finish_cell_literal_buffer h1 h2 h3⟩

/-- C6 witness: a word followed by two newlines raises the flag while
`Unknown`; the same cell under `FoundNone` leaves the flag cleared; a
literal-marked cell records its stripped span. -/
theorem finish_cell_strip_and_flag_witness :
    (ctxCanInfer.can_infer_implicit_header = true ↔
      (baseCtx.can_infer_implicit_header = true
        ∨ wsSignalsHeader (strip_trailing_ws [wordTok 5, nlTok 6, nlTok 7] 8).2.1))
    ∧ ctxFoundNone.can_infer_implicit_header = false
    ∧ ctxLitAfter.header_reparse_cells = baseCtx.header_reparse_cells ++
        [{ cell_tokens := (strip_trailing_ws [wordTok 5, nlTok 6, nlTok 7] 8).1,
           loc := { start := 5, stop := (strip_trailing_ws [wordTok 5, nlTok 6, nlTok 7] 8).2.2 },
           cell_spec := specLit, col_spec := baseCtx.col_specs.get? 0 }] := by
  refine ⟨?_, ?_, ?_⟩
  · exact finish_cell_strip_and_flag.1 pLenient pLenient {} [wordTok 5, nlTok 6, nlTok 7] 0
      baseCtx ctxCanInfer ⟨5, 8⟩ (some (cellW, 1)) rfl rfl
  · exact finish_cell_strip_and_flag.2.1 pLenient pLenient {} [wordTok 5] 0
      ctxFoundNone ctxFoundNone ⟨5, 6⟩ (some (cellW, 1)) rfl rfl
  · exact finish_cell_strip_and_flag.2.2 pLenient pLenient specLit [wordTok 5, nlTok 6, nlTok 7] 0
      baseCtx ctxLitAfter ⟨5, 8⟩ (some (cellLit, 1)) rfl rfl rfl

/-- For a non-empty first row, `finish_implicit_header_row` always
overwrites `col_widths` with one equal width per (already fixed) column:
`Auto` under the autowidth option, `Proportional 1` otherwise
(parse_table.rs lines 150-152). -/
theorem finish_implicit_ok_widths {p : Parser} {cells : List Cell} {ctx ctx' : TableContext}
    (hne : cells ≠ []) (h : p.finish_implicit_header_row cells ctx = .ok ctx') :
    ctx'.table.col_widths =
      List.replicate ctx.num_cols
        (if ctx.autowidths then ColWidth.Auto else ColWidth.Proportional 1)
    ∧ ctx'.num_cols = ctx.num_cols
    ∧ ctx'.autowidths = ctx.autowidths
    ∧ ctx'.effective_row_idx = ctx.effective_row_idx + 1 := by
  unfold Parser.finish_implicit_header_row at h
  have hne' : cells.isEmpty = false := by
    cases cells with
    | nil => exact absurd rfl hne
    | cons a l => rfl
  simp only [hne', Bool.false_eq_true, if_false, reduceIte] at h
  split at h
  · split at h
    · split at h
      · cases h
      · rename_i row' ctx2 heq
        cases h
        have hframe := reparse_header_cells_ok_frame heq
        rw [hframe]
        simp
    · cases h; simp
  · split at h
    · cases h
      simp
    · cases h
      simp

/-- The implicit first-row pass fixes the column count at the first row's
cell count and installs the equal per-column widths. -/
theorem implicit_first_row_fixes_cols {p : Parser} {cells : List Cell} {ctx ctx' : TableContext}
    (hne : cells ≠ []) (h : p.implicit_first_row cells ctx = .ok ctx') :
    ctx'.num_cols = cells.length
    ∧ ctx'.table.col_widths = List.replicate cells.length
        (if ctx.autowidths then ColWidth.Auto else ColWidth.Proportional 1)
    ∧ ctx'.effective_row_idx = ctx.effective_row_idx + 1 := by
  unfold Parser.implicit_first_row at h
  have hw := finish_implicit_ok_widths hne h
  simpa using ⟨hw.2.1, hw.1, hw.2.2.2⟩

/-- Equal proportional columns render as equal explicit percentages. -/
theorem colgroup_equal_proportional (n : Nat) :
    colgroupWidthStyles (List.replicate n (ColWidth.Proportional 1)) false =
      List.replicate n (some ((100 : ℚ) / n)) := by
  unfold colgroupWidthStyles distribute
  simp [List.map_replicate, List.sum_replicate]

/-- Under the autowidth option the renderer emits no explicit widths. -/
theorem colgroup_autowidth_none (ws : List ColWidth) :
    colgroupWidthStyles ws true = List.replicate ws.length none := by
  have hlen : (distribute ws).length = ws.length := by
    unfold distribute; simp
  unfold colgroupWidthStyles
  simp only [if_true, List.map_const']
  rw [hlen]

/-- C9 counterexample: a two-cell first row of a table with no `cols`
attribute and no autowidth option makes `finish_implicit_header_row`
install `[Proportional 1, Proportional 1]` as explicit column width specs,
and for those the renderer emits an explicit `width: 50%` style per
column — not no styles, as the claim states. -/
theorem implicit_widths_counterexample :
    (pLenient.implicit_first_row [cellDe, cellDe] ctxFoundNone).map
        (fun c => c.table.col_widths)
      = .ok [ColWidth.Proportional 1, ColWidth.Proportional 1]
    ∧ colgroupWidthStyles [ColWidth.Proportional 1, ColWidth.Proportional 1] false =
        [some ((50 : ℚ)), some 50]
    ∧ some ((50 : ℚ)) ≠ (none : Option ℚ) := by
  refine ⟨by decide, ?_, by simp⟩
  have h2 := colgroup_equal_proportional 2
  rw [show (List.replicate 2 (ColWidth.Proportional 1)) =
        [ColWidth.Proportional 1, ColWidth.Proportional 1] from rfl] at h2
  rw [h2]
  norm_num [List.replicate]

/-- C9 (amended): with `cols` absent the column count becomes fixed at the
number of cells of the first parsed row and no per-column style defaults
exist (there are no column specs), but the implicit pass assigns every
column an equal `Proportional 1` width (`Auto` under autowidth) and the
renderer emits equal explicit percentage width styles for them unless the
block has the autowidth option. -/
theorem implicit_cols_and_widths :
    (∀ (p : Parser) (cells : List Cell) (ctx ctx' : TableContext),
        cells ≠ [] → p.implicit_first_row cells ctx = .ok ctx' →
        ctx'.num_cols = cells.length
        ∧ ctx'.table.col_widths = List.replicate cells.length
            (if ctx.autowidths then ColWidth.Auto else ColWidth.Proportional 1))
    ∧ (∀ n : Nat, colgroupWidthStyles (List.replicate n (ColWidth.Proportional 1)) false =
        List.replicate n (some ((100 : ℚ) / n)))
    ∧ (∀ ws : List ColWidth, colgroupWidthStyles ws true = List.replicate ws.length none) :=
  ⟨fun _ _ _ _ hne h => ⟨(implicit_first_row_fixes_cols hne h).1,
     (implicit_first_row_fixes_cols hne h).2.1⟩,
   colgroup_equal_proportional,
   colgroup_autowidth_none⟩

/-- C9 witness: the amended statement at a concrete two-cell first row. -/
theorem implicit_cols_and_widths_witness :
    (ctxC9After.num_cols = 2
      ∧ ctxC9After.table.col_widths = List.replicate 2
          (if ctxFoundNone.autowidths then ColWidth.Auto else ColWidth.Proportional 1))
    ∧ colgroupWidthStyles (List.replicate 2 (ColWidth.Proportional 1)) false =
        List.replicate 2 (some ((100 : ℚ) / 2))
    ∧ colgroupWidthStyles [ColWidth.Proportional 1] true = List.replicate 1 none := by
  refine ⟨?_, implicit_cols_and_widths.2.1 2, implicit_cols_and_widths.2.2 [ColWidth.Proportional 1]⟩
  exact implicit_cols_and_widths.1 pLenient [cellDe, cellDe] ctxFoundNone ctxC9After
    (by decide) (by decide)

/-- A state that satisfies `known_to_exist` is `ExplicitlySet` or
`FoundImplicit`. -/
theorem known_to_exist_cases {s : HeaderRow} (h : s.known_to_exist = true) :
    s = .ExplicitlySet ∨ s = .FoundImplicit := by
  cases s <;> simp_all [HeaderRow.known_to_exist]

/-- `is_unknown` characterizes the `Unknown` constructor. -/
theorem is_unknown_eq {s : HeaderRow} (h : s.is_unknown = true) : s = .Unknown := by
  cases s <;> simp_all [HeaderRow.is_unknown]

/-- `finish_cell` never touches the accumulated table or the header
state: it only updates the flag, the reparse buffer and the error sink. -/
theorem finish_cell_table_frame {p p' : Parser} {spec : CellSpec}
    {tokens : List Token} {i : Nat} {ctx ctx' : TableContext} {loc : SourceLocation}
    {res : Option (Cell × Nat)}
    (h : p.finish_cell spec tokens i ctx loc = .ok (p', ctx', res)) :
    ctx'.table = ctx.table ∧ ctx'.header_row = ctx.header_row := by
  unfold Parser.finish_cell at h
  repeat'
    first
      | split at h
      | (cases h <;> simp [*])
      | simp_all

/-- `finish_cell` preserves the header invariant. -/
theorem finish_cell_preserves_inv {p p' : Parser} {spec : CellSpec}
    {tokens : List Token} {i : Nat} {ctx ctx' : TableContext} {loc : SourceLocation}
    {res : Option (Cell × Nat)}
    (hinv : HeaderInv ctx)
    (h : p.finish_cell spec tokens i ctx loc = .ok (p', ctx', res)) :
    HeaderInv ctx' := by
  obtain ⟨hft, hfs⟩ := finish_cell_table_frame h
  refine ⟨?_, ?_, ?_⟩
  · rw [hft, hfs]; exact hinv.1
  · intro hflag
    rw [hft, hfs]
    by_cases hu : ctx.header_row.is_unknown = true
    · exact Or.inl hu
    · have hcom := finish_cell_flag_committed (Bool.not_eq_true _ ▸ hu) h
      rw [hcom] at hflag
      cases hflag
  · rw [hft, hfs]; exact hinv.2.2

/-- Pushing a row after something was already committed (a body row exists
or the header is recorded) always appends it as a body row and changes
nothing else (parse_table.rs lines 133-138). -/
theorem push_row_committed {p : Parser} {row : Row} {ctx ctx' : TableContext}
    (hc : ctx.table.rows ≠ [] ∨ ctx.table.header_row.isSome = true)
    (hinv : HeaderInv ctx)
    (h : p.push_table_row row ctx = .ok ctx') :
    ctx'.table.rows = ctx.table.rows ++ [row]
    ∧ ctx'.table.header_row = ctx.table.header_row
    ∧ ctx'.header_row = ctx.header_row
    ∧ ctx'.can_infer_implicit_header = ctx.can_infer_implicit_header
    ∧ HeaderInv ctx' := by
  have hnu : ctx.header_row.is_unknown = false := by
    by_cases hu : ctx.header_row.is_unknown = true
    · obtain ⟨hr, hh⟩ := hinv.2.2 hu
      rcases hc with hc | hc
      · exact absurd hr hc
      · rw [hh] at hc; cases hc
    · exact Bool.not_eq_true _ ▸ hu
  have hcond : ¬(ctx.table.rows.isEmpty = true ∧ ctx.table.header_row.isNone = true
      ∧ (ctx.header_row.known_to_exist = true ∨ ctx.can_infer_implicit_header = true)) := by
    rintro ⟨he, hn, _⟩
    rcases hc with hc | hc
    · exact hc (List.isEmpty_iff.mp he)
    · rw [Option.isNone_iff_eq_none.mp hn] at hc; cases hc
  unfold Parser.push_table_row at h
  rw [if_neg hcond] at h
  simp only [hnu, Bool.false_eq_true, if_false, reduceIte] at h
  cases h
  refine ⟨rfl, rfl, rfl, rfl, ?_, ?_, ?_⟩
  · simpa using hinv.1
  · intro hflag
    rcases hinv.2.1 hflag with hu | hs
    · rw [hu] at hnu; cases hnu
    · exact Or.inr (by simpa using hs)
  · intro hu
    simp only [hnu] at hu
    cases hu

/-- Pushing the first row with no header trigger makes it the single body
row (parse_table.rs lines 133-138 from an empty table). -/
theorem push_row_fresh_body {p : Parser} {row : Row} {ctx ctx' : TableContext}
    (hrows : ctx.table.rows = []) (hnone : ctx.table.header_row = none)
    (htrig : ¬(ctx.header_row.known_to_exist = true ∨ ctx.can_infer_implicit_header = true))
    (h : p.push_table_row row ctx = .ok ctx') :
    ctx'.table.rows = [row] ∧ ctx'.table.header_row = none
    ∧ HeaderInv ctx' := by
  have hcond : ¬(ctx.table.rows.isEmpty = true ∧ ctx.table.header_row.isNone = true
      ∧ (ctx.header_row.known_to_exist = true ∨ ctx.can_infer_implicit_header = true)) := by
    rintro ⟨_, _, ht⟩
    exact htrig ht
  unfold Parser.push_table_row at h
  rw [if_neg hcond] at h
  have hflag : ctx.can_infer_implicit_header = false := by
    by_cases hf : ctx.can_infer_implicit_header = true
    · exact absurd (Or.inr hf) htrig
    · exact Bool.not_eq_true _ ▸ hf
  cases h
  by_cases hu : ctx.header_row.is_unknown = true
  · have hequ : ctx.header_row = .Unknown := is_unknown_eq hu
    refine ⟨by simp [hequ, hrows, HeaderRow.is_unknown],
      by simp [hequ, hnone, HeaderRow.is_unknown], ?_, ?_, ?_⟩
    · intro hs; simp [hequ, hnone, HeaderRow.is_unknown] at hs
    · intro hf; simp [hequ, hflag, HeaderRow.is_unknown] at hf
    · intro hx
      simp [hequ, HeaderRow.is_unknown] at hx
  · have hu' : ctx.header_row.is_unknown = false := Bool.not_eq_true _ ▸ hu
    refine ⟨by simp [hu', hrows], by simp [hu', hnone], ?_, ?_, ?_⟩
    · intro hs; simp [hu', hnone] at hs
    · intro hf; simp [hu', hflag] at hf
    · intro hx; simp [hu'] at hx

/-- Pushing the first row with a header trigger records it as the header:
rows stay empty and the state is `FoundImplicit` or `ExplicitlySet`
(parse_table.rs lines 124-132). -/
theorem push_row_fresh_header {p : Parser} {row : Row} {ctx ctx' : TableContext}
    (hrows : ctx.table.rows = []) (hnone : ctx.table.header_row = none)
    (htrig : ctx.header_row.known_to_exist = true ∨ ctx.can_infer_implicit_header = true)
    (hinv : HeaderInv ctx)
    (h : p.push_table_row row ctx = .ok ctx') :
    (∃ row', ctx'.table.header_row = some row')
    ∧ ctx'.table.rows = []
    ∧ (ctx'.header_row = .FoundImplicit ∨ ctx'.header_row = .ExplicitlySet)
    ∧ HeaderInv ctx' := by
  have hcond : (ctx.table.rows.isEmpty = true ∧ ctx.table.header_row.isNone = true
      ∧ (ctx.header_row.known_to_exist = true ∨ ctx.can_infer_implicit_header = true)) := by
    refine ⟨by simp [hrows], by simp [hnone], htrig⟩
  unfold Parser.push_table_row at h
  rw [if_pos hcond] at h
  split at h
  · rename_i hu
    split at h
    · cases h
    · rename_i row' ctx2 heq
      cases h
      have hframe := reparse_header_cells_ok_frame heq
      rw [hframe]
      refine ⟨⟨row', by simp⟩, by simp [hrows], by simp, ?_, ?_, ?_⟩
      · intro; simp [HeaderRow.known_to_exist]
      · intro; right; simp
      · intro hx; simp [HeaderRow.is_unknown] at hx
  · rename_i hnu
    have hknown : ctx.header_row.known_to_exist = true := by
      rcases htrig with hk | hf
      · exact hk
      · rcases hinv.2.1 hf with hu | hs
        · exact absurd hu hnu
        · rw [hnone] at hs; cases hs
    cases h
    refine ⟨⟨row, by simp⟩, by simp [hrows], ?_, ?_, ?_, ?_⟩
    · rcases known_to_exist_cases hknown with hs | hs
      · right; simpa using hs
      · left; simpa using hs
    · intro; simpa using hknown
    · intro hf; right; simp
    · intro hx
      simp only at hx
      exact absurd hx hnu

/-- Inversion of `apply_row_op` for a cell operation. -/
theorem apply_row_op_cell_ok {p p1 : Parser} {ctx ctx1 : TableContext}
    {s : CellSpec} {ts : List Token} {i : Nat} {l : SourceLocation}
    (h : p.apply_row_op ctx (RowOp.cellOp s ts i l) = .ok (p1, ctx1)) :
    ∃ res, p.finish_cell s ts i ctx l = .ok (p1, ctx1, res) := by
  unfold Parser.apply_row_op at h
  replace h : (match p.finish_cell s ts i ctx l with
      | Except.error e => Except.error e
      | Except.ok (q, c, _) => Except.ok (q, c)) = Except.ok (p1, ctx1) := h
  cases hfc : p.finish_cell s ts i ctx l with
  | error e => rw [hfc] at h; cases h
  | ok tr =>
    rw [hfc] at h
    obtain ⟨p2, ctx2, res2⟩ := tr
    have h2 : (Except.ok (p2, ctx2) : Except ParseErr (Parser × TableContext)) = .ok (p1, ctx1) := h
    cases h2
    exact ⟨res2, rfl⟩

/-- Inversion of `apply_row_op` for a row push. -/
theorem apply_row_op_row_ok {p p1 : Parser} {ctx ctx1 : TableContext} {r : Row}
    (h : p.apply_row_op ctx (RowOp.rowOp r) = .ok (p1, ctx1)) :
    p1 = p ∧ p.push_table_row r ctx = .ok ctx1 := by
  unfold Parser.apply_row_op at h
  replace h : (match p.push_table_row r ctx with
      | Except.error e => Except.error e
      | Except.ok c => Except.ok (p, c)) = Except.ok (p1, ctx1) := h
  cases hp : p.push_table_row r ctx with
  | error e => rw [hp] at h; cases h
  | ok c2 =>
    rw [hp] at h
    have h2 : (Except.ok (p, c2) : Except ParseErr (Parser × TableContext)) = .ok (p1, ctx1) := h
    cases h2
    exact ⟨rfl, rfl⟩

/-- Inversion of `run_row_ops` on a cons. -/
theorem run_ops_cons_ok {p p' : Parser} {ctx ctx' : TableContext} {op : RowOp}
    {rest : List RowOp}
    (h : Parser.run_row_ops p ctx (op :: rest) = .ok (p', ctx')) :
    ∃ p1 ctx1, p.apply_row_op ctx op = .ok (p1, ctx1)
      ∧ Parser.run_row_ops p1 ctx1 rest = .ok (p', ctx') := by
  unfold Parser.run_row_ops at h
  cases ha : p.apply_row_op ctx op with
  | error e => rw [ha] at h; cases h
  | ok pr =>
    rw [ha] at h
    obtain ⟨p1, ctx1⟩ := pr
    exact ⟨p1, ctx1, rfl, h⟩

/-- After something was committed, every further row operation appends its
rows as body rows in order; the header never changes again. -/
theorem run_ops_committed {ctx : TableContext} :
    ∀ (ops : List RowOp) {p p' : Parser} {ctx' : TableContext},
    (ctx.table.rows ≠ [] ∨ ctx.table.header_row.isSome = true) →
    HeaderInv ctx →
    Parser.run_row_ops p ctx ops = .ok (p', ctx') →
    ctx'.table.rows = ctx.table.rows ++ opRows ops
    ∧ ctx'.table.header_row = ctx.table.header_row
    ∧ HeaderInv ctx' := by
  intro ops
  induction ops generalizing ctx with
  | nil =>
    intro p p' ctx' hc hinv h
    unfold Parser.run_row_ops at h
    cases h
    exact ⟨by simp [opRows], rfl, hinv⟩
  | cons op rest ih =>
    intro p p' ctx' hc hinv h
    obtain ⟨p1, ctx1, hop, hrest⟩ := run_ops_cons_ok h
    cases op with
    | cellOp s ts i l =>
      obtain ⟨res, hfc⟩ := apply_row_op_cell_ok hop
      obtain ⟨hft, _⟩ := finish_cell_table_frame hfc
      have hinv1 := finish_cell_preserves_inv hinv hfc
      have hc1 : ctx1.table.rows ≠ [] ∨ ctx1.table.header_row.isSome = true := by
        rw [hft]; exact hc
      obtain ⟨ha, hb, hcinv⟩ := ih hc1 hinv1 hrest
      rw [hft] at ha hb
      exact ⟨by simpa [opRows] using ha, hb, hcinv⟩
    | rowOp r =>
      obtain ⟨hp1, hpush⟩ := apply_row_op_row_ok hop
      obtain ⟨ha, hb, _, _, hinv1⟩ := push_row_committed hc hinv hpush
      have hc1 : ctx1.table.rows ≠ [] ∨ ctx1.table.header_row.isSome = true := by
        rw [ha]; exact Or.inl (by simp)
      obtain ⟨ha2, hb2, hcinv⟩ := ih hc1 hinv1 hrest
      rw [ha] at ha2
      rw [hb] at hb2
      refine ⟨?_, hb2, hcinv⟩
      rw [ha2]
      simp [opRows]

/-- Running row operations from a fresh table: either no header was ever
recorded and the body rows are exactly the recorded rows, or the very
first recorded row became the header and the body rows are the rest. -/
theorem run_ops_fresh {ctx : TableContext} :
    ∀ (ops : List RowOp) {p p' : Parser} {ctx' : TableContext},
    ctx.table.rows = [] → ctx.table.header_row = none → HeaderInv ctx →
    Parser.run_row_ops p ctx ops = .ok (p', ctx') →
    HeaderInv ctx'
    ∧ ((ctx'.table.header_row = none ∧ ctx'.table.rows = opRows ops)
       ∨ ((∃ r, ctx'.table.header_row = some r)
          ∧ ctx'.table.rows = (opRows ops).tail ∧ opRows ops ≠ [])) := by
  intro ops
  induction ops generalizing ctx with
  | nil =>
    intro p p' ctx' hrows hnone hinv h
    unfold Parser.run_row_ops at h
    cases h
    exact ⟨hinv, Or.inl ⟨hnone, by simpa [opRows] using hrows⟩⟩
  | cons op rest ih =>
    intro p p' ctx' hrows hnone hinv h
    obtain ⟨p1, ctx1, hop, hrest⟩ := run_ops_cons_ok h
    cases op with
    | cellOp s ts i l =>
      obtain ⟨res, hfc⟩ := apply_row_op_cell_ok hop
      obtain ⟨hft, _⟩ := finish_cell_table_frame hfc
      have hinv1 := finish_cell_preserves_inv hinv hfc
      have h1 : ctx1.table.rows = [] := by rw [hft]; exact hrows
      have h2 : ctx1.table.header_row = none := by rw [hft]; exact hnone
      obtain ⟨hi, hd⟩ := ih h1 h2 hinv1 hrest
      exact ⟨hi, by simpa [opRows] using hd⟩
    | rowOp r =>
      obtain ⟨hp1, hpush⟩ := apply_row_op_row_ok hop
      by_cases htrig : (ctx.header_row.known_to_exist = true
          ∨ ctx.can_infer_implicit_header = true)
      · obtain ⟨⟨r0, hsome⟩, hrows1, hstate, hinv1⟩ :=
          push_row_fresh_header hrows hnone htrig hinv hpush
        have hc1 : ctx1.table.rows ≠ [] ∨ ctx1.table.header_row.isSome = true :=
          Or.inr (by simp [hsome])
        obtain ⟨ha, hb, hcinv⟩ := run_ops_committed rest hc1 hinv1 hrest
        refine ⟨hcinv, Or.inr ⟨⟨r0, by rw [hb]; exact hsome⟩, ?_, by simp [opRows]⟩⟩
        rw [ha, hrows1]
        simp [opRows]
      · obtain ⟨hrows1, hnone1, hinv1⟩ := push_row_fresh_body hrows hnone htrig hpush
        have hc1 : ctx1.table.rows ≠ [] ∨ ctx1.table.header_row.isSome = true :=
          Or.inl (by simp [hrows1])
        obtain ⟨ha, hb, hcinv⟩ := run_ops_committed rest hc1 hinv1 hrest
        refine ⟨hcinv, Or.inl ⟨by rw [hb]; exact hnone1, ?_⟩⟩
        rw [ha, hrows1]
        simp [opRows]

/-- `finish_implicit_header_row` from a fresh table: nothing for an empty
cell list, otherwise the first row becomes the header (trigger) or the
single body row. -/
theorem finish_implicit_fresh {p : Parser} {cells : List Cell} {ctx ctx' : TableContext}
    (hrows : ctx.table.rows = []) (hnone : ctx.table.header_row = none)
    (hinv : HeaderInv ctx)
    (h : p.finish_implicit_header_row cells ctx = .ok ctx') :
    HeaderInv ctx'
    ∧ ((ctx'.table.header_row = none
        ∧ ctx'.table.rows = (if cells.isEmpty then ([] : List Row) else [Row.mk cells]))
       ∨ ((∃ r, ctx'.table.header_row = some r) ∧ ctx'.table.rows = []
          ∧ cells.isEmpty = false)) := by
  cases cells with
  | nil =>
    rw [finish_implicit_empty_eq] at h
    cases h
    exact ⟨hinv, Or.inl ⟨hnone, by simp [hrows]⟩⟩
  | cons c cs =>
    unfold Parser.finish_implicit_header_row at h
    simp only [List.isEmpty_cons, Bool.false_eq_true, if_false, reduceIte] at h
    split at h
    · rename_i htrig
      split at h
      · rename_i hu
        split at h
        · cases h
        · rename_i row' ctx2 heq
          cases h
          have hframe := reparse_header_cells_ok_frame heq
          rw [hframe]
          refine ⟨⟨?_, ?_, ?_⟩, Or.inr ⟨⟨row', by simp⟩, by simp [hrows], by simp⟩⟩
          · intro; simp [HeaderRow.known_to_exist]
          · intro; right; simp
          · intro hx; simp [HeaderRow.is_unknown] at hx
      · rename_i hnu
        have hknown : ctx.header_row.known_to_exist = true := by
          rcases htrig with hk | hf
          · exact hk
          · rcases hinv.2.1 hf with hu | hs
            · exact absurd hu hnu
            · rw [hnone] at hs; cases hs
        cases h
        refine ⟨⟨?_, ?_, ?_⟩, Or.inr ⟨⟨Row.mk (c :: cs), by simp⟩, by simp [hrows], by simp⟩⟩
        · intro; simpa using hknown
        · intro; right; simp
        · intro hx
          simp only at hx
          exact absurd hx hnu
    · rename_i htrig
      have hflag : ctx.can_infer_implicit_header = false := by
        by_cases hf : ctx.can_infer_implicit_header = true
        · exact absurd (Or.inr hf) htrig
        · exact Bool.not_eq_true _ ▸ hf
      cases h
      by_cases hu : ctx.header_row.is_unknown = true
      · have hequ : ctx.header_row = .Unknown := is_unknown_eq hu
        refine ⟨⟨?_, ?_, ?_⟩, Or.inl ⟨by simp [hequ, hnone, HeaderRow.is_unknown],
          by simp [hequ, hrows, HeaderRow.is_unknown]⟩⟩
        · intro hs; simp [hequ, hnone, HeaderRow.is_unknown] at hs
        · intro hf; simp [hequ, hflag, HeaderRow.is_unknown] at hf
        · intro hx; simp [hequ, HeaderRow.is_unknown] at hx
      · have hu' : ctx.header_row.is_unknown = false := Bool.not_eq_true _ ▸ hu
        refine ⟨⟨?_, ?_, ?_⟩, Or.inl ⟨by simp [hu', hnone], by simp [hu', hrows]⟩⟩
        · intro hs; simp [hu', hnone] at hs
        · intro hf; simp [hu', hflag] at hf
        · intro hx; simp [hu'] at hx

/-- C1: at most one row ever becomes the header.  From a fresh table,
the header row is populated only in the `FoundImplicit`/`ExplicitlySet`
states and only from the first recorded row; when this happens the body
rows are exactly the remaining recorded rows, otherwise all recorded rows
are body rows. -/
theorem table_header_at_most_one :
    ∀ (p p' : Parser) (implicitCells : Option (List Cell)) (ops : List RowOp)
      (ctx ctx' : TableContext),
    ctx.table.rows = [] → ctx.table.header_row = none → HeaderInv ctx →
    p.parse_table_body implicitCells ops ctx = .ok (p', ctx') →
    (ctx'.table.header_row.isSome = true →
       (ctx'.header_row = .FoundImplicit ∨ ctx'.header_row = .ExplicitlySet))
    ∧ (ctx'.table.header_row = none → ctx'.table.rows = inputRows implicitCells ops)
    ∧ (ctx'.table.header_row.isSome = true →
       ctx'.table.rows = (inputRows implicitCells ops).tail
       ∧ inputRows implicitCells ops ≠ []) := by
  intro p p' implicitCells ops ctx ctx' hrows hnone hinv h
  unfold Parser.parse_table_body at h
  cases implicitCells with
  | none =>
    obtain ⟨hinv', hd⟩ := run_ops_fresh ops hrows hnone hinv h
    refine ⟨?_, ?_, ?_⟩
    · intro hs
      exact (known_to_exist_cases (hinv'.1 hs)).elim (fun a => Or.inr a) (fun a => Or.inl a)
    · intro hn
      rcases hd with ⟨_, hr⟩ | ⟨⟨r, hr⟩, _, _⟩
      · simpa [inputRows] using hr
      · rw [hn] at hr; cases hr
    · intro hs
      rcases hd with ⟨hn, _⟩ | ⟨⟨r, hr⟩, hrr, hne⟩
      · rw [hn] at hs; cases hs
      · exact ⟨by simpa [inputRows] using hrr, by simpa [inputRows] using hne⟩
  | some cells =>
    replace h : (match p.implicit_first_row cells ctx with
        | Except.error e => Except.error e
        | Except.ok c1 => Parser.run_row_ops p c1 ops) = Except.ok (p', ctx') := h
    cases him : p.implicit_first_row cells ctx with
    | error e => rw [him] at h; cases h
    | ok ctx1 =>
      rw [him] at h
      have h2 : Parser.run_row_ops p ctx1 ops = .ok (p', ctx') := h
      have hfi : p.finish_implicit_header_row cells { ctx with num_cols := cells.length }
          = .ok ctx1 := him
      have hinv0 : HeaderInv { ctx with num_cols := cells.length } := hinv
      have hrows0 : ({ ctx with num_cols := cells.length } : TableContext).table.rows = [] :=
        hrows
      have hnone0 : ({ ctx with num_cols := cells.length } : TableContext).table.header_row =
          none := hnone
      obtain ⟨hinv1, hd1⟩ := finish_implicit_fresh hrows0 hnone0 hinv0 hfi
      rcases hd1 with ⟨hn1, hr1⟩ | ⟨⟨r, hs1⟩, hr1, hne1⟩
      · cases hce : cells.isEmpty with
        | true =>
          rw [hce] at hr1
          simp only [if_true] at hr1
          obtain ⟨hinv', hd⟩ := run_ops_fresh ops hr1 hn1 hinv1 h2
          refine ⟨?_, ?_, ?_⟩
          · intro hs
            exact (known_to_exist_cases (hinv'.1 hs)).elim (fun a => Or.inr a) (fun a => Or.inl a)
          · intro hn
            rcases hd with ⟨_, hr⟩ | ⟨⟨r2, hr⟩, _, _⟩
            · simpa [inputRows, hce] using hr
            · rw [hn] at hr; cases hr
          · intro hs
            rcases hd with ⟨hn, _⟩ | ⟨⟨r2, hr⟩, hrr, hne⟩
            · rw [hn] at hs; cases hs
            · exact ⟨by simpa [inputRows, hce] using hrr, by simpa [inputRows, hce] using hne⟩
        | false =>
          rw [hce] at hr1
          simp only [Bool.false_eq_true, if_false] at hr1
          have hc1 : ctx1.table.rows ≠ [] ∨ ctx1.table.header_row.isSome = true := by
            rw [hr1]; exact Or.inl (by simp)
          obtain ⟨ha, hb, hcinv⟩ := run_ops_committed ops hc1 hinv1 h2
          rw [hn1] at hb
          refine ⟨?_, ?_, ?_⟩
          · intro hs; rw [hb] at hs; cases hs
          · intro _
            rw [ha, hr1]
            simp [inputRows, hce]
          · intro hs; rw [hb] at hs; cases hs
      · have hc1 : ctx1.table.rows ≠ [] ∨ ctx1.table.header_row.isSome = true :=
          Or.inr (by simp [hs1])
        obtain ⟨ha, hb, hcinv⟩ := run_ops_committed ops hc1 hinv1 h2
        have hsome2 : ctx'.table.header_row = some r := by rw [hb]; exact hs1
        refine ⟨?_, ?_, ?_⟩
        · intro hs
          exact (known_to_exist_cases (hcinv.1 hs)).elim (fun a => Or.inr a) (fun a => Or.inl a)
        · intro hn; rw [hn] at hsome2; cases hsome2
        · intro _
          refine ⟨?_, by simp [inputRows, hne1]⟩
          rw [ha, hr1]
          simp [inputRows, hne1]

/-- C1 witness: two rows pushed under `ExplicitlySet` — the first becomes
the header, the second the only body row. -/
theorem table_header_at_most_one_witness :
    (ctxC1After.table.header_row.isSome = true →
      (ctxC1After.header_row = .FoundImplicit ∨ ctxC1After.header_row = .ExplicitlySet))
    ∧ (ctxC1After.table.header_row = none →
        ctxC1After.table.rows = inputRows none [RowOp.rowOp rowDe, RowOp.rowOp rowSt])
    ∧ (ctxC1After.table.header_row.isSome = true →
        ctxC1After.table.rows = (inputRows none [RowOp.rowOp rowDe, RowOp.rowOp rowSt]).tail
        ∧ inputRows none [RowOp.rowOp rowDe, RowOp.rowOp rowSt] ≠ []) :=
  table_header_at_most_one pLenient pLenient none [RowOp.rowOp rowDe, RowOp.rowOp rowSt]
    ctxExplicitHeader ctxC1After rfl rfl (by decide) rfl

/-- A settled negative state is neither unknown nor known-to-exist. -/
theorem noheader_state_not_known {s : HeaderRow}
    (h : s = .FoundNone ∨ s = .ExplicitlyUnset) :
    s.known_to_exist = false ∧ s.is_unknown = false := by
  rcases h with rfl | rfl <;> exact ⟨rfl, rfl⟩

/-- Under `NoHeaderInv`, a pushed row is always a body row. -/
theorem push_row_noheader {p : Parser} {row : Row} {ctx ctx' : TableContext}
    (hinv : NoHeaderInv ctx) (h : p.push_table_row row ctx = .ok ctx') :
    NoHeaderInv ctx' ∧ ctx'.table.rows = ctx.table.rows ++ [row] := by
  obtain ⟨hst, hflag, hnone⟩ := hinv
  obtain ⟨hkn, hun⟩ := noheader_state_not_known hst
  have hcond : ¬(ctx.table.rows.isEmpty = true ∧ ctx.table.header_row.isNone = true
      ∧ (ctx.header_row.known_to_exist = true ∨ ctx.can_infer_implicit_header = true)) := by
    rintro ⟨_, _, ht | ht⟩
    · rw [hkn] at ht; cases ht
    · rw [hflag] at ht; cases ht
  unfold Parser.push_table_row at h
  rw [if_neg hcond] at h
  simp only [hun, Bool.false_eq_true, if_false, reduceIte] at h
  cases h
  exact ⟨⟨by simpa using hst, by simpa using hflag, by simpa using hnone⟩, rfl⟩

/-- Under `NoHeaderInv`, the implicit first-row pass records a body row
(or nothing) and never a header. -/
theorem finish_implicit_noheader {p : Parser} {cells : List Cell} {ctx ctx' : TableContext}
    (hinv : NoHeaderInv ctx)
    (h : p.finish_implicit_header_row cells ctx = .ok ctx') :
    NoHeaderInv ctx' := by
  obtain ⟨hst, hflag, hnone⟩ := hinv
  obtain ⟨hkn, hun⟩ := noheader_state_not_known hst
  cases cells with
  | nil =>
    rw [finish_implicit_empty_eq] at h
    cases h
    exact ⟨hst, hflag, hnone⟩
  | cons c cs =>
    unfold Parser.finish_implicit_header_row at h
    simp only [List.isEmpty_cons, Bool.false_eq_true, if_false, reduceIte,
      hkn, hflag, hun, false_or, or_self] at h
    cases h
    exact ⟨by simp only []; exact hst, rfl, by simp only []; exact hnone⟩

/-- `finish_cell` preserves `NoHeaderInv`. -/
theorem finish_cell_noheader {p p' : Parser} {spec : CellSpec}
    {tokens : List Token} {i : Nat} {ctx ctx' : TableContext} {loc : SourceLocation}
    {res : Option (Cell × Nat)}
    (hinv : NoHeaderInv ctx)
    (h : p.finish_cell spec tokens i ctx loc = .ok (p', ctx', res)) :
    NoHeaderInv ctx' := by
  obtain ⟨hst, hflag, hnone⟩ := hinv
  obtain ⟨hkn, hun⟩ := noheader_state_not_known hst
  obtain ⟨hft, hfs⟩ := finish_cell_table_frame h
  have hfc := finish_cell_flag_committed hun h
  exact ⟨by rw [hfs]; exact hst, hfc, by rw [hft]; exact hnone⟩

/-- `NoHeaderInv` is preserved by any run of row operations. -/
theorem run_ops_noheader {ctx : TableContext} :
    ∀ (ops : List RowOp) {p p' : Parser} {ctx' : TableContext},
    NoHeaderInv ctx → Parser.run_row_ops p ctx ops = .ok (p', ctx') →
    NoHeaderInv ctx' := by
  intro ops
  induction ops generalizing ctx with
  | nil =>
    intro p p' ctx' hinv h
    unfold Parser.run_row_ops at h
    cases h
    exact hinv
  | cons op rest ih =>
    intro p p' ctx' hinv h
    obtain ⟨p1, ctx1, hop, hrest⟩ := run_ops_cons_ok h
    cases op with
    | cellOp s ts i l =>
      obtain ⟨res, hfc⟩ := apply_row_op_cell_ok hop
      exact ih (finish_cell_noheader hinv hfc) hrest
    | rowOp r =>
      obtain ⟨_, hpush⟩ := apply_row_op_row_ok hop
      exact ih (push_row_noheader hinv hpush).1 hrest

/-- `NoHeaderInv` is preserved by the whole table-body run. -/
theorem parse_body_noheader {p p' : Parser} {implicitCells : Option (List Cell)}
    {ops : List RowOp} {ctx ctx' : TableContext}
    (hinv : NoHeaderInv ctx)
    (h : p.parse_table_body implicitCells ops ctx = .ok (p', ctx')) :
    NoHeaderInv ctx' := by
  unfold Parser.parse_table_body at h
  cases implicitCells with
  | none => exact run_ops_noheader ops hinv h
  | some cells =>
    replace h : (match p.implicit_first_row cells ctx with
        | Except.error e => Except.error e
        | Except.ok c1 => Parser.run_row_ops p c1 ops) = Except.ok (p', ctx') := h
    cases him : p.implicit_first_row cells ctx with
    | error e => rw [him] at h; cases h
    | ok ctx1 =>
      rw [him] at h
      have hfi : p.finish_implicit_header_row cells { ctx with num_cols := cells.length }
          = .ok ctx1 := him
      have hinv0 : NoHeaderInv { ctx with num_cols := cells.length } := hinv
      exact run_ops_noheader ops (finish_implicit_noheader hinv0 hfi) h

/-- C7: the initial header state is `ExplicitlySet` under a `header`
option, `ExplicitlyUnset` under `noheader`, and `FoundNone` for a body of
more than one contiguous line, set before any cell is inspected; from
`FoundNone` with the flag down, no later operation ever populates
`Table.header_row`. -/
theorem multiline_no_header_inference :
    (∀ n : Nat, 1 < n → initHeaderRow false false n = .FoundNone)
    ∧ (∀ (b : Bool) (n : Nat), initHeaderRow true b n = .ExplicitlySet)
    ∧ (∀ n : Nat, initHeaderRow false true n = .ExplicitlyUnset)
    ∧ (∀ (p p' : Parser) (implicitCells : Option (List Cell)) (ops : List RowOp)
        (ctx ctx' : TableContext),
        ctx.header_row = .FoundNone →
        ctx.can_infer_implicit_header = false →
        ctx.table.header_row = none →
        p.parse_table_body implicitCells ops ctx = .ok (p', ctx') →
        ctx'.table.header_row = none) := by
  refine ⟨?_, ?_, ?_, ?_⟩
  · intro n hn
    unfold initHeaderRow
    rw [if_neg (by simp), if_neg (by simp), if_pos (by omega)]
  · intro b n; rfl
  · intro n; rfl
  · intro p p' ic ops ctx ctx' h1 h2 h3 h
    exact (parse_body_noheader ⟨Or.inl h1, h2, h3⟩ h).2.2

/-- C7 witness: a two-line body starts `FoundNone`, and from there a
pushed row lands in the body with the header still absent; the option
cases at concrete inputs. -/
theorem multiline_no_header_inference_witness :
    initHeaderRow false false 2 = .FoundNone
    ∧ initHeaderRow true false 5 = .ExplicitlySet
    ∧ initHeaderRow false true 1 = .ExplicitlyUnset
    ∧ ctxC7After.table.header_row = none := by
  refine ⟨multiline_no_header_inference.1 2 (by decide),
    multiline_no_header_inference.2.1 false 5,
    multiline_no_header_inference.2.2.1 1, ?_⟩
  exact multiline_no_header_inference.2.2.2 pLenient pLenient none
    [RowOp.rowOp rowDe] ctxFoundNone ctxC7After rfl rfl rfl rfl

/-- The `read_line` loop of `table_content` on input that never contains
the closing line: strict mode propagates the never-closed diagnostic,
lenient mode records it and returns a buffer containing every consumed
token. -/
theorem table_content_read_no_close {p : Parser} {delim : Line} :
    ∀ (srcLines : List Line) (tokens : List Token) (start e : Nat),
    (∀ l ∈ srcLines, l.src ≠ delim.src) →
    (p.strict = true →
      Parser.table_content_read p delim srcLines tokens start e =
        .error (.Diag (neverClosedDiag delim)))
    ∧ (p.strict = false →
      ∃ tt endPos,
        Parser.table_content_read p delim srcLines tokens start e =
          .ok ({ p with
                 errors := p.errors ++ [neverClosedDiag delim],
                 source_lines := [] }, tt, endPos)
        ∧ (∀ t ∈ tokens, t ∈ tt.tokens)
        ∧ ∀ l ∈ srcLines, ∀ t ∈ l.tokens, t ∈ tt.tokens) := by
  intro srcLines
  induction srcLines with
  | nil =>
    intro tokens start e hno
    constructor
    · intro hstrict
      unfold Parser.table_content_read Parser.err_line Parser.handle_err neverClosedDiag
      simp only [hstrict, reduceIte]
    · intro hstrict
      unfold Parser.table_content_read Parser.err_line Parser.handle_err neverClosedDiag
      simp only [hstrict, Bool.false_eq_true, if_false, reduceIte]
      refine ⟨TableTokens.mk tokens ⟨start, e⟩, e, rfl, fun t ht => ht, by simp⟩
  | cons next rest ih =>
    intro tokens start e hno
    have hne : next.src ≠ delim.src := hno next (by simp)
    have hno' : ∀ l ∈ rest, l.src ≠ delim.src := fun l hl => hno l (by simp [hl])
    unfold Parser.table_content_read
    rw [if_neg hne]
    set te := (if tokens.isEmpty then (tokens, e)
               else (tokens ++ [newline_token e], e + 1)) with hte
    have hmono : ∀ t ∈ tokens, t ∈ te.1 ++ next.tokens := by
      intro t ht
      rw [hte]
      by_cases hc : tokens.isEmpty
      · simp [hc, ht]
      · simp [hc, ht]
    have hnext : ∀ t ∈ next.tokens, t ∈ te.1 ++ next.tokens := by
      intro t ht
      simp [ht]
    obtain ⟨ihs, ihl⟩ := ih (te.1 ++ next.tokens) start
      (match next.last_loc with | some l => l.stop | none => te.2) hno'
    constructor
    · intro hstrict
      exact ihs hstrict
    · intro hstrict
      obtain ⟨tt, endPos, heq, hcov1, hcov2⟩ := ihl hstrict
      refine ⟨tt, endPos, heq, fun t ht => hcov1 t (hmono t ht), ?_⟩
      intro l hl t ht
      rw [List.mem_cons] at hl
      rcases hl with rfl | hl
      · exact hcov1 t (hnext t ht)
      · exact hcov2 l hl t ht

theorem table_content_chunk_cons_ne {p : Parser} {delim line : Line} {rest : List Line}
    {tokens : List Token} {start e : Nat}
    (hne : line.src ≠ delim.src) :
    Parser.table_content_chunk p delim (line :: rest) tokens start e =
      Parser.table_content_chunk p delim rest
        (if rest.isEmpty then tokens ++ line.tokens
         else (tokens ++ line.tokens) ++
           [newline_token (match line.last_loc with | some l => l.stop | none => e)])
        start
        (if rest.isEmpty then (match line.last_loc with | some l => l.stop | none => e)
         else (match line.last_loc with | some l => l.stop | none => e) + 1) := by
  cases rest with
  | nil =>
    unfold Parser.table_content_chunk
    rw [if_neg hne]
    rfl
  | cons r rs =>
    unfold Parser.table_content_chunk
    rw [if_neg hne]
    rfl

theorem table_content_chunk_no_close {p : Parser} {delim : Line} :
    ∀ (lines : List Line) (tokens : List Token) (start e : Nat),
    (∀ l ∈ lines, l.src ≠ delim.src) →
    (∀ l ∈ p.source_lines, l.src ≠ delim.src) →
    (p.strict = true →
      Parser.table_content_chunk p delim lines tokens start e =
        .error (.Diag (neverClosedDiag delim)))
    ∧ (p.strict = false →
      ∃ tt endPos,
        Parser.table_content_chunk p delim lines tokens start e =
          .ok ({ p with
                 errors := p.errors ++ [neverClosedDiag delim],
                 source_lines := [] }, tt, endPos)
        ∧ (∀ t ∈ tokens, t ∈ tt.tokens)
        ∧ (∀ l ∈ lines, ∀ t ∈ l.tokens, t ∈ tt.tokens)
        ∧ (∀ l ∈ p.source_lines, ∀ t ∈ l.tokens, t ∈ tt.tokens)) := by
  intro lines
  induction lines with
  | nil =>
    intro tokens start e hno hno2
    unfold Parser.table_content_chunk
    obtain ⟨hs, hl⟩ := table_content_read_no_close p.source_lines tokens start e hno2
    constructor
    · exact hs
    · intro hstrict
      obtain ⟨tt, ep, heq, h1, h2⟩ := hl hstrict
      exact ⟨tt, ep, heq, h1, by simp, h2⟩
  | cons line rest ih =>
    intro tokens start e hno hno2
    have hne : line.src ≠ delim.src := hno line (by simp)
    have hno' : ∀ l ∈ rest, l.src ≠ delim.src := fun l hl => hno l (by simp [hl])
    rw [table_content_chunk_cons_ne hne]
    obtain ⟨ihs, ihl⟩ := ih
      (if rest.isEmpty then tokens ++ line.tokens
       else (tokens ++ line.tokens) ++
         [newline_token (match line.last_loc with | some l => l.stop | none => e)])
      start
      (if rest.isEmpty then (match line.last_loc with | some l => l.stop | none => e)
       else (match line.last_loc with | some l => l.stop | none => e) + 1)
      hno' hno2
    have hmono : ∀ t, t ∈ tokens ∨ t ∈ line.tokens →
        t ∈ (if rest.isEmpty then tokens ++ line.tokens
             else (tokens ++ line.tokens) ++
               [newline_token (match line.last_loc with | some l => l.stop | none => e)]) := by
      intro t ht
      by_cases hrest : rest.isEmpty = true
      · rcases ht with ht | ht <;> simp [hrest, ht]
      · rcases ht with ht | ht <;> simp [hrest, ht]
    constructor
    · exact ihs
    · intro hstrict
      obtain ⟨tt, ep, heq, h1, h2, h3⟩ := ihl hstrict
      refine ⟨tt, ep, heq, fun t ht => h1 t (hmono t (Or.inl ht)), ?_, h3⟩
      intro l hl t ht
      rcases List.mem_cons.mp hl with rfl | hl
      · exact h1 t (hmono t (Or.inr ht))
      · exact h2 l hl t ht

/-- C8 (amended): when end of input is reached without a line whose raw
text matches the opening delimiter's, the "Table never closed" error is
reported at the opening delimiter's location; in lenient mode the
tokenizer still returns a best-effort buffer covering every consumed
line's tokens, while in strict mode the error propagates immediately and
no buffer is returned. -/
theorem table_never_closed_behavior :
    ∀ (p : Parser) (lines : List Line) (delim : Line) (dl : SourceLocation),
    delim.last_loc = some dl →
    (∀ l ∈ lines, l.src ≠ delim.src) →
    (∀ l ∈ p.source_lines, l.src ≠ delim.src) →
    (p.strict = true →
      p.table_content lines delim = .error (.Diag (neverClosedDiag delim)))
    ∧ (p.strict = false →
      ∃ tt endPos,
        p.table_content lines delim =
          .ok ({ p with
                 errors := p.errors ++ [neverClosedDiag delim],
                 source_lines := [] }, tt, endPos)
        ∧ (∀ l ∈ lines, ∀ t ∈ l.tokens, t ∈ tt.tokens)
        ∧ (∀ l ∈ p.source_lines, ∀ t ∈ l.tokens, t ∈ tt.tokens)) := by
  intro p lines delim dl hdl hno hno2
  unfold Parser.table_content
  rw [hdl]
  obtain ⟨hs, hl⟩ := table_content_chunk_no_close lines [] (dl.stop + 1) (dl.stop + 1) hno hno2
  refine ⟨hs, fun hstrict => ?_⟩
  obtain ⟨tt, ep, heq, _, h2, h3⟩ := hl hstrict
  exact ⟨tt, ep, heq, h2, h3⟩

/-- C8 counterexample: in strict mode an unterminated table makes
`table_content` return the propagated error — no best-effort token buffer
is handed back, contrary to the claim's "in both strict and lenient
modes". -/
theorem table_content_strict_aborts :
    pStrict.table_content [bodyLine] delimLine =
      .error (.Diag (neverClosedDiag delimLine)) := rfl

/-- C8 witness: the amended statement at a one-line unterminated body,
once strict and once lenient. -/
theorem table_never_closed_behavior_witness :
    (pStrict.table_content [bodyLine] delimLine = .error (.Diag (neverClosedDiag delimLine)))
    ∧ ∃ tt endPos,
        pLenient.table_content [bodyLine] delimLine =
          .ok ({ pLenient with
                 errors := pLenient.errors ++ [neverClosedDiag delimLine],
                 source_lines := [] }, tt, endPos)
        ∧ (∀ l ∈ [bodyLine], ∀ t ∈ l.tokens, t ∈ tt.tokens)
        ∧ (∀ l ∈ pLenient.source_lines, ∀ t ∈ l.tokens, t ∈ tt.tokens) := by
  constructor
  · exact (table_never_closed_behavior pStrict [bodyLine] delimLine ⟨0, 4⟩ rfl
      (by decide) (by decide)).1 rfl
  · exact (table_never_closed_behavior pLenient [bodyLine] delimLine ⟨0, 4⟩ rfl
      (by decide) (by decide)).2 rfl

end Asciidork
